import Mathlib

/-!
A verification development for the broad-phase spatial collision index
(`CollisionSet.cpp`) of the endless-sky repository.

The embedding is shallow and executable.  World coordinates are modelled as
`Int`: positions are doubles in the source, but every grid computation first
truncates them to `int`, and the development restricts attention to
integer-valued positions and radii, where the truncation is the identity.
Fractional collision distances (doubles in the source) are modelled as `Rat`.
The external collaborators (`Mask`, `Government`, `Logger`) are modelled by
per-body functions, an enmity relation passed to each query, and an emitted
warning count.  `GetMask(step)` and `Facing()` are forwarded verbatim by the
index, so they are folded into the per-body mask functions.
-/

namespace ES

/-- Arithmetic right shift of a signed integer by `s` bits, i.e. floor
division by `2 ^ s`.  This is the C++ `x >> SHIFT` on an `int`. -/
def shr (a : Int) (s : Nat) : Int := Int.fdiv a (2 ^ s)

/-- `a & (m - 1)` for a power of two `m` (the source's `x & WRAP_MASK` and
`x & CELL_MASK` with an `int` left operand): the nonnegative remainder of `a`
modulo `m`. -/
def wrap (a : Int) (m : Nat) : Nat := (Int.emod a m).toNat

/-- The wrapped bin index of a signed cell coordinate pair:
`(y & WRAP_MASK) * CELLS + (x & WRAP_MASK)`. -/
def binOfXY (cells : Nat) (x y : Int) : Nat := wrap y cells * cells + wrap x cells

/-- The inclusive integer range `[lo, hi]`, empty when `hi < lo`: the
iteration space of the `for(v = lo; v <= hi; ++v)` loops of the source. -/
def rangeInt (lo hi : Int) : List Int :=
  (List.range (hi + 1 - lo).toNat).map (fun i : Nat => lo + (i : Int))

/-- `static_cast<int>(c - q)` for an integer `c` and a rational `q`:
truncation toward zero of the exact difference, computed on the numerator and
denominator (`q.den > 0`, and C++ integer conversion truncates toward zero). -/
def truncSub (c : Int) (q : Rat) : Int := Int.tdiv (c * q.den - q.num) q.den

/-- `static_cast<int>(c + q)` for an integer `c` and a rational `q`:
truncation toward zero of the exact sum. -/
def truncAdd (c : Int) (q : Rat) : Int := Int.tdiv (c * q.den + q.num) q.den

/-- Maximum allowed projectile velocity (`MAX_VELOCITY`). -/
def MAX_VELOCITY : Int := 450000

/-- Velocity used for any projectiles with `v > MAX_VELOCITY`. -/
def USED_MAX_VELOCITY : Int := MAX_VELOCITY - 1

/-- Modelled from the spec: the members `seen` and `seenEpoch` are declared in
`CollisionSet.h`, which is not among the sources here; per the spec they hold
`unsigned` (32-bit) integers, so `++seenEpoch` wraps modulo `2 ^ 32`. -/
def EPOCH_MOD : Nat := 2 ^ 32

/-- An external body: position, bounding radius, optional government handle,
and its oriented collision mask, exposed through `collide`
(`Mask::Collide(offset, direction) → fraction`) and `withinRing`.  Facing and
the animation step are folded into the two mask functions. -/
structure Body where
  posX : Int
  posY : Int
  radius : Int
  gov : Option Nat
  collide : Int → Int → Int → Int → Rat
  withinRing : Int → Int → Rat → Rat → Bool

instance : Inhabited Body :=
  ⟨{ posX := 0, posY := 0, radius := 0, gov := none,
     collide := fun _ _ _ _ => 1, withinRing := fun _ _ _ _ => false }⟩

/-- One record per (body, cell) pair.  `body` stands for the source's
`Body *` (bodies are identified by their dense index into `all`), `seenIndex`
is the dense body index used as the key into the `seen` vector, and `x`, `y`
are the signed (pre-wrap) cell coordinates. -/
structure Entry where
  body : Nat
  seenIndex : Nat
  x : Int
  y : Int
deriving DecidableEq

instance : Inhabited Entry := ⟨⟨0, 0, 0, 0⟩⟩

/-- The wrapped bin of an entry's signed cell coordinates. -/
def Entry.bin (e : Entry) (cells : Nat) : Nat := binOfXY cells e.x e.y

/-- The collision index.  `CELL_SIZE`, `CELL_MASK` and `WRAP_MASK` are stored
fields in the source but are always exactly `2 ^ SHIFT`, `2 ^ SHIFT - 1` and
`CELLS - 1`; here they are derived from `SHIFT` and `CELLS`. -/
structure CollisionSet where
  SHIFT : Nat
  CELLS : Nat
  step : Int
  added : List Entry
  sorted : Array Entry
  counts : Array Nat
  all : List Body
  seen : Array Nat
  seenEpoch : Nat

/-- Floor base-2 logarithm by repeated halving, with structural fuel so that
the kernel can evaluate it (`fuel ≥ n` suffices since the argument halves). -/
def log2go : Nat → Nat → Nat
  | 0, _ => 0
  | fuel + 1, n => if 2 ≤ n then log2go fuel (n / 2) + 1 else 0

/-- The number of iterations of the constructor's `while(v >>= 1u)` loops:
the floor base-2 logarithm (0 for inputs 0 and 1). -/
def log2floor (n : Nat) : Nat := log2go n n

/-- `CELL_SIZE = 1u << SHIFT`. -/
def CollisionSet.CELL_SIZE (cs : CollisionSet) : Nat := 2 ^ cs.SHIFT

/-- `Clear(step)`: reset all per-tick state; the `counts` vector restarts as
`CELLS * CELLS + 2` zeros (two sentinel slots).  `seen` and `seenEpoch` are
left untouched. -/
def CollisionSet.Clear (cs : CollisionSet) (step : Int) : CollisionSet :=
  { cs with
    step := step
    added := []
    sorted := #[]
    all := []
    counts := Array.mkArray (cs.CELLS * cs.CELLS + 2) 0 }

/-- The constructor `CollisionSet(cellSize, cellCount)`.  The source computes
`SHIFT` by `while(cellSize >>= 1u) ++SHIFT;`, which yields the floor base-2
logarithm of `cellSize`, and `CELLS` by `CELLS = 1u; while(cellCount >>= 1u)
CELLS <<= 1;`, which yields `2 ^ log2floor cellCount` (both arguments are
rounded down to a power of two).  It then calls `Clear(0)`. -/
def mkSet (cellSize cellCount : Nat) : CollisionSet :=
  CollisionSet.Clear
    { SHIFT := log2floor cellSize
      CELLS := 2 ^ log2floor cellCount
      step := 0
      added := []
      sorted := #[]
      counts := #[]
      all := []
      seen := #[]
      seenEpoch := 0 }
    0

/-- `Add(body)`: compute the covered grid cell range by arithmetic shifts of
the truncated world coordinates, append one pending entry per covered cell
(y outer loop, x inner loop), increment the histogram slot `bin + 2` for each,
and append the body to `all`. -/
def CollisionSet.Add (cs : CollisionSet) (b : Body) : CollisionSet :=
  let minX := shr (b.posX - b.radius) cs.SHIFT
  let minY := shr (b.posY - b.radius) cs.SHIFT
  let maxX := shr (b.posX + b.radius) cs.SHIFT
  let maxY := shr (b.posY + b.radius) cs.SHIFT
  let newEntries := (rangeInt minY maxY).flatMap (fun y =>
    (rangeInt minX maxX).map (fun x => Entry.mk cs.all.length cs.all.length x y))
  { cs with
    added := cs.added ++ newEntries
    counts := newEntries.foldl (fun c e =>
      c.setD (e.bin cs.CELLS + 2) (c.getD (e.bin cs.CELLS + 2) 0 + 1)) cs.counts
    all := cs.all ++ [b] }

/-- Inclusive prefix sums with accumulator `acc`: the in-place
`std::partial_sum` over `counts` at the start of `Finish`. -/
def runningTotals (acc : Nat) : List Nat → List Nat
  | [] => []
  | x :: xs => (acc + x) :: runningTotals (acc + x) xs

/-- The placement pass of `Finish`'s counting sort: for each pending entry in
order, `sorted[counts[bin + 1]++] = entry`. -/
def radixPass (cells : Nat) : List Entry → Array Entry → Array Nat → Array Entry × Array Nat
  | [], s, c => (s, c)
  | e :: es, s, c =>
    let idx := e.bin cells + 1
    let pos := c.getD idx 0
    radixPass cells es (s.setD pos e) (c.setD idx (pos + 1))

/-- `Finish()`: prefix-sum the histogram, radix-place the pending entries into
`sorted`, and reset the seen markers (`seen` becomes `all.size()` zeros,
`seenEpoch` becomes 0). -/
def CollisionSet.Finish (cs : CollisionSet) : CollisionSet :=
  let counts1 := (runningTotals 0 cs.counts.toList).toArray
  let p := radixPass cs.CELLS cs.added (Array.mkArray cs.added.length default) counts1
  { cs with
    sorted := p.1
    counts := p.2
    seen := Array.mkArray cs.all.length 0
    seenEpoch := 0 }

/-- The per-tick pipeline: `Clear(step)`, a sequence of `Add` calls, then
`Finish()`, starting from a freshly constructed set. -/
def build (cellSize cellCount : Nat) (step : Int) (bodies : List Body) : CollisionSet :=
  (bodies.foldl CollisionSet.Add ((mkSet cellSize cellCount).Clear step)).Finish

/-- The entries of bin `i` after `Finish`: the slice
`[counts[i], counts[i+1])` of `sorted`. -/
def CollisionSet.binEntries (cs : CollisionSet) (i : Nat) : List Entry :=
  (cs.sorted.toList.drop (cs.counts.getD i 0)).take
    (cs.counts.getD (i + 1) 0 - cs.counts.getD i 0)

/-- The body stored at dense index `i` of `all`. -/
def CollisionSet.bodyAt (cs : CollisionSet) (i : Nat) : Body := cs.all.getD i default

/-- The closest-collision record of the anonymous namespace: distance so far
and the body that produced it. -/
structure Closest where
  closest_dist : Rat
  closest_body : Option Nat

/-- `Closest::TryNearer`: keep the record unless the new distance is strictly
smaller (`if(new_closest >= closest_dist) return;`). -/
def Closest.TryNearer (c : Closest) (new_closest : Rat) (new_body : Nat) : Closest :=
  if c.closest_dist ≤ new_closest then c else ⟨new_closest, some new_body⟩

/-- The skip condition of the Line scans:
`it->body != target && iGov && pGov && !iGov->IsEnemy(pGov)`.
`isEnemy` is the external `Government::IsEnemy` relation on government ids. -/
def skipsGov (isEnemy : Nat → Nat → Bool) (iGov pGov : Option Nat)
    (tgt : Option Nat) (bodyIdx : Nat) : Bool :=
  match iGov, pGov with
  | some ig, some pg => (some bodyIdx != tgt) && !isEnemy ig pg
  | _, _ => false

/-- `mask.Collide(from - body.Position(), to - from, body.Facing())` for the
body at dense index `i`. -/
def CollisionSet.collideAt (cs : CollisionSet) (fx fy tx ty : Int) (i : Nat) : Rat :=
  let b := cs.bodyAt i
  b.collide (fx - b.posX) (fy - b.posY) (tx - fx) (ty - fy)

/-- Accumulator of the single-cell fast-path scan: the closest record, the
mask-test events (body, returned fraction) in order, and the candidate entries
that reached the friend/foe check. -/
structure ScanAcc where
  closer : Closest
  trace : List (Nat × Rat)
  cands : List Entry

/-- The single-cell fast path's scan of one bin (no seen markers): skip
wrap-aliases, apply the friend/foe check, call the mask and `TryNearer`. -/
def lineScanF (cs : CollisionSet) (fx fy tx ty : Int) (gx gy : Int)
    (isEnemy : Nat → Nat → Bool) (pGov tgt : Option Nat) :
    List Entry → ScanAcc → ScanAcc
  | [], a => a
  | e :: es, a =>
    if e.x != gx || e.y != gy then
      lineScanF cs fx fy tx ty gx gy isEnemy pGov tgt es a
    else
      let a' : ScanAcc := { a with cands := a.cands ++ [e] }
      if skipsGov isEnemy (cs.bodyAt e.body).gov pGov tgt e.body then
        lineScanF cs fx fy tx ty gx gy isEnemy pGov tgt es a'
      else
        let range := cs.collideAt fx fy tx ty e.body
        lineScanF cs fx fy tx ty gx gy isEnemy pGov tgt es
          { a' with
            closer := a'.closer.TryNearer range e.body
            trace := a'.trace ++ [(e.body, range)] }

/-- Accumulator of the stepped traversal's scan: as `ScanAcc`, plus the seen
marker vector being mutated. -/
structure StepAcc where
  closer : Closest
  trace : List (Nat × Rat)
  cands : List Entry
  seen : Array Nat

/-- The stepped traversal's scan of one bin: skip wrap-aliases, skip entries
already seen this epoch, mark seen, then the friend/foe check and mask call. -/
def lineScanS (cs : CollisionSet) (fx fy tx ty : Int) (gx gy : Int)
    (isEnemy : Nat → Nat → Bool) (pGov tgt : Option Nat) (epoch : Nat) :
    List Entry → StepAcc → StepAcc
  | [], a => a
  | e :: es, a =>
    if e.x != gx || e.y != gy then
      lineScanS cs fx fy tx ty gx gy isEnemy pGov tgt epoch es a
    else if a.seen.getD e.seenIndex 0 == epoch then
      lineScanS cs fx fy tx ty gx gy isEnemy pGov tgt epoch es a
    else
      let a' : StepAcc :=
        { a with seen := a.seen.setD e.seenIndex epoch, cands := a.cands ++ [e] }
      if skipsGov isEnemy (cs.bodyAt e.body).gov pGov tgt e.body then
        lineScanS cs fx fy tx ty gx gy isEnemy pGov tgt epoch es a'
      else
        let range := cs.collideAt fx fy tx ty e.body
        lineScanS cs fx fy tx ty gx gy isEnemy pGov tgt epoch es
          { a' with
            closer := a'.closer.TryNearer range e.body
            trace := a'.trace ++ [(e.body, range)] }

/-- The `while(true)` grid-walk of `Line` (integer DDA).  Each iteration scans
the current cell's bin, exits on a recorded hit or on reaching the end cell,
and otherwise advances `gx`/`gy` by comparing the scaled remainders
`rx`, `ry`.  The walk visits at most `|endGX - gx| + |endGY - gy| + 1` cells;
`fuel` carries that bound to make the recursion structural (returning the
accumulator on exhaustion, which a run of the source loop never reaches). -/
def lineLoop (cs : CollisionSet) (fx fy tx ty : Int) (endGX endGY stepX stepY : Int)
    (mx my fullScale : Nat) (isEnemy : Nat → Nat → Bool) (pGov tgt : Option Nat)
    (epoch : Nat) : Nat → Int → Int → Nat → Nat → StepAcc → StepAcc
  | 0, _, _, _, _, a => a
  | fuel + 1, gx, gy, rx, ry, a =>
    let a' := lineScanS cs fx fy tx ty gx gy isEnemy pGov tgt epoch
      (cs.binEntries (binOfXY cs.CELLS gx gy)) a
    if a'.closer.closest_body.isSome || (gx == endGX && gy == endGY) then a'
    else
      let diff : Int := ((rx * my : Nat) : Int) - ((ry * mx : Nat) : Int)
      if diff == 0 then
        if (gx == endGX && gy + stepY == endGY) || (gy == endGY && gx + stepX == endGX) then a'
        else lineLoop cs fx fy tx ty endGX endGY stepX stepY mx my fullScale
          isEnemy pGov tgt epoch fuel (gx + stepX) (gy + stepY) fullScale fullScale a'
      else if diff < 0 then
        lineLoop cs fx fy tx ty endGX endGY stepX stepY mx my fullScale
          isEnemy pGov tgt epoch fuel (gx + stepX) gy fullScale (ry - my * (rx / mx)) a'
      else
        lineLoop cs fx fy tx ty endGX endGY stepX stepY mx my fullScale
          isEnemy pGov tgt epoch fuel gx (gy + stepY) (rx - mx * (ry / my)) fullScale a'

/-- The outputs of one `Line` query: the returned body (if any), the updated
in/out `closestHit` argument, the final best distance of the `Closest` record,
the mask-test events, the candidate entries that reached the friend/foe check,
and the post-query seen state. -/
structure LineOut where
  result : Option Nat
  closestHit : Option Rat
  dist : Rat
  trace : List (Nat × Rat)
  cands : List Entry
  seen : Array Nat
  seenEpoch : Nat

/-- `Line(from, to, closestHit, pGov, target)` without the velocity-cap
branch: the single-cell fast path when start and end cells coincide, the
stepped traversal otherwise.  The final `*closestHit` write-back happens only
when the best distance is `< 1.0` and a `closestHit` pointer was supplied. -/
def CollisionSet.LineNoClamp (cs : CollisionSet) (fx fy tx ty : Int)
    (closestHit : Option Rat) (isEnemy : Nat → Nat → Bool) (pGov tgt : Option Nat) :
    LineOut :=
  let gx := shr fx cs.SHIFT
  let gy := shr fy cs.SHIFT
  let endGX := shr tx cs.SHIFT
  let endGY := shr ty cs.SHIFT
  let c0 : Closest := ⟨closestHit.getD 1, none⟩
  if gx == endGX && gy == endGY then
    let a := lineScanF cs fx fy tx ty gx gy isEnemy pGov tgt
      (cs.binEntries (binOfXY cs.CELLS gx gy)) ⟨c0, [], []⟩
    { result := a.closer.closest_body
      closestHit :=
        if a.closer.closest_dist < 1 ∧ closestHit.isSome then some a.closer.closest_dist
        else closestHit
      dist := a.closer.closest_dist
      trace := a.trace
      cands := a.cands
      seen := cs.seen
      seenEpoch := cs.seenEpoch }
  else
    let epoch := (cs.seenEpoch + 1) % EPOCH_MOD
    let stepX : Int := if fx ≤ tx then 1 else -1
    let stepY : Int := if fy ≤ ty then 1 else -1
    let mx := (tx - fx).natAbs
    let my := (ty - fy).natAbs
    let scale := max mx 1 * max my 1
    let fullScale := cs.CELL_SIZE * scale
    let rx0 := scale * wrap fx cs.CELL_SIZE
    let ry0 := scale * wrap fy cs.CELL_SIZE
    let rx := if stepX > 0 then fullScale - rx0 else rx0
    let ry := if stepY > 0 then fullScale - ry0 else ry0
    let fuel := (endGX - gx).natAbs + (endGY - gy).natAbs + 1
    let a := lineLoop cs fx fy tx ty endGX endGY stepX stepY mx my fullScale
      isEnemy pGov tgt epoch fuel gx gy rx ry ⟨c0, [], [], cs.seen⟩
    { result := a.closer.closest_body
      closestHit :=
        if a.closer.closest_dist < 1 ∧ closestHit.isSome then some a.closer.closest_dist
        else closestHit
      dist := a.closer.closest_dist
      trace := a.trace
      cands := a.cands
      seen := a.seen
      seenEpoch := epoch }

/-- Modelled from the spec: the clamped endpoint
`from + pVelocity.Unit() * USED_MAX_VELOCITY` is computed in the source with
floating-point `Unit()`; per the spec the segment is clamped "to length
`MAX_VELOCITY - 1` along its direction", modelled here with an integer square
root and truncating division.  The clamped length is strictly below
`MAX_VELOCITY`. -/
def clampEnd (fx fy tx ty : Int) : Int × Int :=
  let dx := tx - fx
  let dy := ty - fy
  let len : Int := ((Nat.sqrt (dx * dx + dy * dy).toNat : Nat) : Int)
  (fx + Int.tdiv (dx * USED_MAX_VELOCITY) len, fy + Int.tdiv (dy * USED_MAX_VELOCITY) len)

/-- The result of a full `Line` call: the query outputs, the number of warning
messages sent to the logger by this call, and the updated process-wide
`warned` latch. -/
structure LineRes where
  out : LineOut
  logs : Nat
  warned : Bool

/-- `CollisionSet::Line(from, to, closestHit, pGov, target)` with the
process-wide `warned` latch threaded explicitly.  Order as in the source: the
single-cell fast path is checked first; then, if the segment exceeds
`MAX_VELOCITY` (compared on squared integer lengths), the one-shot warning is
emitted and the call recurses on the clamped segment — since the clamped
length is strictly below `MAX_VELOCITY`, that recursive call is exactly
`LineNoClamp` on the clamped segment, inlined here. -/
def CollisionSet.Line (cs : CollisionSet) (warned : Bool) (fx fy tx ty : Int)
    (closestHit : Option Rat) (isEnemy : Nat → Nat → Bool) (pGov tgt : Option Nat) :
    LineRes :=
  let gx := shr fx cs.SHIFT
  let gy := shr fy cs.SHIFT
  let endGX := shr tx cs.SHIFT
  let endGY := shr ty cs.SHIFT
  if gx == endGX && gy == endGY then
    ⟨cs.LineNoClamp fx fy tx ty closestHit isEnemy pGov tgt, 0, warned⟩
  else if (tx - fx) * (tx - fx) + (ty - fy) * (ty - fy) > MAX_VELOCITY * MAX_VELOCITY then
    let ne := clampEnd fx fy tx ty
    ⟨cs.LineNoClamp fx fy ne.1 ne.2 closestHit isEnemy pGov tgt,
      if warned then 0 else 1, true⟩
  else
    ⟨cs.LineNoClamp fx fy tx ty closestHit isEnemy pGov tgt, 0, warned⟩

/-- The acceptance test of `Ring`:
`(length <= outer && length >= inner) || mask.WithinRing(offset, facing, inner, outer)`.
The real-valued comparisons on `length = |offset|` are encoded exactly on the
squared length: `|v| ≤ b ↔ 0 ≤ b ∧ |v|² ≤ b²` and `b ≤ |v| ↔ b ≤ 0 ∨ b² ≤ |v|²`.
The squared comparisons are written on numerators and denominators:
`|v| ≤ b ↔ 0 ≤ b ∧ |v|² ⬝ b.den² ≤ b.num²` and `b ≤ |v| ↔ b ≤ 0 ∨ b.num² ≤ |v|² ⬝ b.den²`. -/
def CollisionSet.ringAccepts (cs : CollisionSet) (cx cy : Int) (inner outer : Rat)
    (i : Nat) : Bool :=
  let b := cs.bodyAt i
  let ox := cx - b.posX
  let oy := cy - b.posY
  let sq : Int := ox * ox + oy * oy
  (decide (0 ≤ outer.num)
      && decide (sq * ((outer.den : Int) * outer.den) ≤ outer.num * outer.num)
      && (decide (inner.num ≤ 0)
        || decide (inner.num * inner.num ≤ sq * ((inner.den : Int) * inner.den))))
    || b.withinRing ox oy inner outer

/-- Accumulator of the `Ring` scan: the result buffer, the bodies subjected to
the acceptance test (in order), and the seen marker vector. -/
structure RingAcc where
  result : List Nat
  trace : List Nat
  seen : Array Nat

/-- The `Ring` scan of one cell `(x, y)`: skip wrap-aliases and entries seen
this epoch, mark seen, and push the body if the acceptance test passes. -/
def ringScanCell (cs : CollisionSet) (cx cy : Int) (inner outer : Rat) (epoch : Nat)
    (x y : Int) : List Entry → RingAcc → RingAcc
  | [], a => a
  | e :: es, a =>
    if e.x != x || e.y != y then
      ringScanCell cs cx cy inner outer epoch x y es a
    else if a.seen.getD e.seenIndex 0 == epoch then
      ringScanCell cs cx cy inner outer epoch x y es a
    else
      let a' : RingAcc :=
        { a with seen := a.seen.setD e.seenIndex epoch, trace := a.trace ++ [e.body] }
      if cs.ringAccepts cx cy inner outer e.body then
        ringScanCell cs cx cy inner outer epoch x y es
          { a' with result := a'.result ++ [e.body] }
      else
        ringScanCell cs cx cy inner outer epoch x y es a'

/-- The outputs of one `Ring` (or `Circle`) query: the result buffer, the
acceptance-test events, and the post-query seen state. -/
structure RingOut where
  result : List Nat
  trace : List Nat
  seen : Array Nat
  seenEpoch : Nat

/-- `CollisionSet::Ring(center, inner, outer)`: bound the outer disk's cells
by truncation and shifts, bump the epoch, clear the result buffer, and scan
every cell of the box (y outer loop, x inner loop). -/
def CollisionSet.Ring (cs : CollisionSet) (cx cy : Int) (inner outer : Rat) : RingOut :=
  let minX := shr (truncSub cx outer) cs.SHIFT
  let minY := shr (truncSub cy outer) cs.SHIFT
  let maxX := shr (truncAdd cx outer) cs.SHIFT
  let maxY := shr (truncAdd cy outer) cs.SHIFT
  let epoch := (cs.seenEpoch + 1) % EPOCH_MOD
  let a := (rangeInt minY maxY).foldl (fun a y =>
    (rangeInt minX maxX).foldl (fun a x =>
      ringScanCell cs cx cy inner outer epoch x y
        (cs.binEntries (binOfXY cs.CELLS x y)) a) a)
    ⟨[], [], cs.seen⟩
  ⟨a.result, a.trace, a.seen, epoch⟩

/-- `CollisionSet::Circle(center, radius) = Ring(center, 0, radius)`. -/
def CollisionSet.Circle (cs : CollisionSet) (cx cy : Int) (radius : Rat) : RingOut :=
  cs.Ring cx cy 0 radius

/-- The effective endpoint a `Line` call traverses to: the given endpoint,
except that an over-length segment that misses the single-cell fast path is
clamped. -/
def CollisionSet.lineEffEnd (cs : CollisionSet) (fx fy tx ty : Int) : Int × Int :=
  if shr fx cs.SHIFT == shr tx cs.SHIFT && shr fy cs.SHIFT == shr ty cs.SHIFT then (tx, ty)
  else if (tx - fx) * (tx - fx) + (ty - fy) * (ty - fy) > MAX_VELOCITY * MAX_VELOCITY then
    clampEnd fx fy tx ty
  else (tx, ty)

/-- The arguments of one `Line` call in a sequence of calls. -/
structure LineCall where
  fx : Int
  fy : Int
  tx : Int
  ty : Int
  closestHit : Option Rat
  pGov : Option Nat
  tgt : Option Nat

/-- Run a sequence of `Line` calls against one index, threading the mutable
seen state and the process-wide `warned` latch, and count the total number of
warning messages logged. -/
def runLines (isEnemy : Nat → Nat → Bool) : CollisionSet → Bool → List LineCall → Nat
  | _, _, [] => 0
  | cs, w, c :: rest =>
    let r := cs.Line w c.fx c.fy c.tx c.ty c.closestHit isEnemy c.pGov c.tgt
    r.logs + runLines isEnemy
      { cs with seen := r.out.seen, seenEpoch := r.out.seenEpoch } r.warned rest

/-- The closed grid-cell box `[minX..maxX] × [minY..maxY]` (y outer, x inner,
matching the loop order of `Add`). -/
def boxCells (minX maxX minY maxY : Int) : List (Int × Int) :=
  (rangeInt minY maxY).flatMap (fun y => (rangeInt minX maxX).map (fun x => (x, y)))

/-- The relation between the `Closest` record and the mask-test events
accumulated so far in a query whose initial cap is `cap`: a recorded body is a
tested body whose fraction is strictly below the cap and minimal among all
tested fractions, and an empty record means no tested fraction was below the
cap. -/
def ClosestInv (cap : Rat) (c : Closest) (tr : List (Nat × Rat)) : Prop :=
  (∀ b, c.closest_body = some b →
    c.closest_dist < cap ∧ (b, c.closest_dist) ∈ tr ∧ ∀ p ∈ tr, c.closest_dist ≤ p.2) ∧
  (c.closest_body = none → c.closest_dist = cap ∧ ∀ p ∈ tr, cap ≤ p.2)

/-- Two entries of one body (same dense index) always sit at distinct signed
cells: `Add` pushes at most one entry per cell per body. -/
def entryRel (e₁ e₂ : Entry) : Prop :=
  e₁.seenIndex = e₂.seenIndex → (e₁.x, e₁.y) ≠ (e₂.x, e₂.y)

instance (e₁ e₂ : Entry) : Decidable (entryRel e₁ e₂) := by
  unfold entryRel
  infer_instance

/-- The invariants of the finalized lookup table used by the query proofs:
every stored entry's dense indices agree and are in range of the seen vector,
and two entries sharing a dense index sit at distinct signed cells. -/
def EntriesInv (cs : CollisionSet) : Prop :=
  (∀ e ∈ cs.sorted.toList, e.body = e.seenIndex ∧ e.seenIndex < cs.seen.size) ∧
  List.Pairwise entryRel cs.sorted.toList

instance (cs : CollisionSet) : Decidable (EntriesInv cs) := by
  unfold EntriesInv
  infer_instance

/-- The number of pending entries of `l` that fall in bin `b`. -/
def cnt (cells : Nat) (l : List Entry) (b : Nat) : Nat :=
  (l.filter (fun e => e.bin cells == b)).length

/-- The start offset of bin `b`: the total size of the bins before it. -/
def off (cells : Nat) (l : List Entry) (b : Nat) : Nat :=
  ∑ j ∈ Finset.range b, cnt cells l j

/-- Agreement of two bodies on every attribute except the government handle. -/
def govIndep (b₁ b₂ : Body) : Prop :=
  b₁.posX = b₂.posX ∧ b₁.posY = b₂.posY ∧ b₁.radius = b₂.radius ∧
  b₁.collide = b₂.collide ∧ b₁.withinRing = b₂.withinRing

/-- Agreement of two indices on every component except the governments of the
stored bodies. -/
def StateRel (cs₁ cs₂ : CollisionSet) : Prop :=
  cs₁.SHIFT = cs₂.SHIFT ∧ cs₁.CELLS = cs₂.CELLS ∧ cs₁.step = cs₂.step ∧
  cs₁.added = cs₂.added ∧ cs₁.sorted = cs₂.sorted ∧ cs₁.counts = cs₂.counts ∧
  cs₁.seen = cs₂.seen ∧ cs₁.seenEpoch = cs₂.seenEpoch ∧
  List.Forall₂ govIndep cs₁.all cs₂.all

/-! ### Concrete example inputs

A 4×4 grid of 16-unit cells.  `exBodyA` covers cells (0,0) and (1,0) and its
mask reports a hit at fraction 9/10; `exBodyB` covers only cell (2,0) and its
mask reports a hit at fraction 1/2. -/

/-- An enmity relation under which no two governments are enemies. -/
def exFalseEnemy : Nat → Nat → Bool := fun _ _ => false

/-- Example body at (20, 8) with radius 6 (cells (0,0) and (1,0) of a 16-unit
grid); its mask reports every ray hit at fraction 9/10. -/
def exBodyA : Body :=
  { posX := 20
    posY := 8
    radius := 6
    gov := none
    collide := fun _ _ _ _ => Rat.divInt 9 10
    withinRing := fun _ _ _ _ => false }

/-- Example body at (36, 8) with radius 2 (cell (2,0) only); its mask reports
every ray hit at fraction 1/2. -/
def exBodyB : Body :=
  { posX := 36
    posY := 8
    radius := 2
    gov := none
    collide := fun _ _ _ _ => Rat.divInt 1 2
    withinRing := fun _ _ _ _ => false }

/-- The index holding `exBodyA` (dense index 0) and `exBodyB` (dense index 1). -/
def exSetAB : CollisionSet := build 16 4 0 [exBodyA, exBodyB]

/-- Example body at (8, 8) with radius 4 (cell (0,0) only); its mask reports
every ray "hit" at fraction 3/2 (a value ≥ 1, i.e. a miss by contract). -/
def exBodyC : Body :=
  { posX := 8
    posY := 8
    radius := 4
    gov := none
    collide := fun _ _ _ _ => Rat.divInt 3 2
    withinRing := fun _ _ _ _ => false }

/-- The index holding only `exBodyC`. -/
def exSetC : CollisionSet := build 16 4 0 [exBodyC]

/-- An empty index over a 4×4 grid of 2^20-unit cells: a 500000-long segment
fits in a single cell. -/
def exSetBig : CollisionSet := build 1048576 4 0 []

/-- `exSetAB` in the state reached after 2^32 - 1 queries that scanned no
occupied cell (e.g. `Ring` calls over empty regions): `seenEpoch` is at its
maximum value while both seen markers still hold their `Finish` value 0. -/
def exSetWrap : CollisionSet := { exSetAB with seenEpoch := EPOCH_MOD - 1 }

/-- Example body for Ring queries at (x, 0) with radius 1 and a mask that
never reports `WithinRing`. -/
def exRingBody (x : Int) : Body :=
  { posX := x
    posY := 0
    radius := 1
    gov := none
    collide := fun _ _ _ _ => 1
    withinRing := fun _ _ _ _ => false }

/-- The index holding `exRingBody` instances at x = 5, 15, 30 (dense indices
0, 1, 2). -/
def exSetRing : CollisionSet := build 16 4 0 [exRingBody 5, exRingBody 15, exRingBody 30]

/-- `exRingBody x` with a government assigned. -/
def exRingBodyG (x : Int) : Body := { exRingBody x with gov := some 3 }

/-- `exSetRing` rebuilt from the same bodies with governments assigned. -/
def exSetRingG : CollisionSet :=
  build 16 4 0 [exRingBodyG 5, exRingBodyG 15, exRingBodyG 30]

/-! ## Basic lemmas -/

theorem getD_toList {α : Type} (a : Array α) (i : Nat) (d : α) :
    a.getD i d = a.toList.getD i d := by
  simp [Array.getD_eq_get?, Array.getElem?_eq_getElem?_toList, List.getD_eq_getElem?_getD]

theorem getD_setD {α : Type} (a : Array α) (i j : Nat) (v d : α) :
    (a.setD i v).getD j d = if i = j ∧ i < a.size then v else a.getD j d := by
  unfold Array.setD
  split
  · next hi =>
    rw [Array.getD_eq_get?, Array.get?_set, Array.getD_eq_get?]
    by_cases hij : i = j
    · subst hij
      simp [hi]
    · simp [hij]
  · next hi =>
    have : ¬(i = j ∧ i < a.size) := fun h => hi h.2
    simp [this]

theorem mem_rangeInt {lo hi v : Int} : v ∈ rangeInt lo hi ↔ lo ≤ v ∧ v ≤ hi := by
  unfold rangeInt
  simp only [List.mem_map, List.mem_range]
  constructor
  · rintro ⟨i, hi, rfl⟩
    omega
  · rintro ⟨h₁, h₂⟩
    refine ⟨(v - lo).toNat, ?_, ?_⟩
    · omega
    · omega

/-! ## Counterexamples -/

/-- C1: counterexample.  On the index of `exBodyA` (dense index 0, cells (0,0)
and (1,0), fraction 9/10) and `exBodyB` (dense index 1, cell (2,0), fraction
1/2), the segment (0,8)→(40,8) of length 40 ≤ MAX_VELOCITY returns body 0,
although body 1 passes the friend/foe predicate (all governments are null) and
its fraction 1/2 is strictly below both the initial cap 1 and body 0's
fraction 9/10: the traversal stops at the first cell whose scan records a hit,
so the minimum-fraction body is not returned. -/
theorem C1_counterexample :
    (exSetAB.Line false 0 8 40 8 none exFalseEnemy none none).out.result = some 0 ∧
    (exSetAB.Line false 0 8 40 8 none exFalseEnemy none none).out.result ≠ some 1 ∧
    exSetAB.all.length = 2 ∧
    exSetAB.collideAt 0 8 40 8 1 = Rat.divInt 1 2 ∧
    exSetAB.collideAt 0 8 40 8 0 = Rat.divInt 9 10 ∧
    skipsGov exFalseEnemy (exSetAB.bodyAt 1).gov none none 1 = false ∧
    Rat.divInt 1 2 < Rat.divInt 9 10 ∧ Rat.divInt 1 2 < 1 := by decide

/-- C2: counterexample.  With incoming `*closestHit = 2` and a single body
whose mask reports fraction 3/2, `Line` returns the body (3/2 < 2, so
`TryNearer` records it) but leaves `*closestHit` at 2, because the write-back
only happens when the best distance is below 1.0 — so `*closestHit` is not
`min(h0, h1) = 3/2`. -/
theorem C2_counterexample :
    (exSetC.Line false 0 8 9 8 (some 2) exFalseEnemy none none).out.result = some 0 ∧
    (exSetC.Line false 0 8 9 8 (some 2) exFalseEnemy none none).out.trace =
      [(0, Rat.divInt 3 2)] ∧
    (exSetC.Line false 0 8 9 8 (some 2) exFalseEnemy none none).out.dist = Rat.divInt 3 2 ∧
    (exSetC.Line false 0 8 9 8 (some 2) exFalseEnemy none none).out.closestHit = some 2 ∧
    min (2 : Rat) (Rat.divInt 3 2) = Rat.divInt 3 2 ∧ (2 : Rat) ≠ Rat.divInt 3 2 := by decide

/-- C7: counterexample.  A `Line` call whose start and end grid cells coincide
takes the single-cell fast path, which returns before `++seenEpoch`: the
epoch stays 0 instead of being incremented, even though the query did test a
body (the trace is nonempty). -/
theorem C7_counterexample :
    exSetC.seenEpoch = 0 ∧
    (exSetC.Line false 0 8 9 8 (some 2) exFalseEnemy none none).out.seenEpoch = 0 ∧
    (exSetC.Line false 0 8 9 8 (some 2) exFalseEnemy none none).out.trace =
      [(0, Rat.divInt 3 2)] := by decide

/-- C8: counterexample.  `exSetWrap` is `exSetAB` with `seenEpoch` at its
maximum value 2^32 - 1 and both seen markers still 0 (reachable after 2^32 - 1
queries that scanned no occupied cell).  A stepped `Line` wraps the epoch to
0 without re-initialising the seen vector, the stale markers 0 compare equal
to the new epoch 0, every body is skipped (empty trace) and `null` is
returned — whereas the identical query on `exSetAB` (same index, unwrapped
epoch) returns body 0. -/
theorem C8_counterexample :
    exSetWrap.seenEpoch = EPOCH_MOD - 1 ∧
    exSetWrap.seen.getD 0 0 = 0 ∧ exSetWrap.seen.getD 1 0 = 0 ∧
    (exSetWrap.Line false 0 8 40 8 none exFalseEnemy none none).out.seenEpoch = 0 ∧
    (exSetWrap.Line false 0 8 40 8 none exFalseEnemy none none).out.trace = [] ∧
    (exSetWrap.Line false 0 8 40 8 none exFalseEnemy none none).out.result = none ∧
    (exSetAB.Line false 0 8 40 8 none exFalseEnemy none none).out.result = some 0 := by decide

/-- C9: counterexample.  On a grid with 2^20-unit cells, the segment
(0,0)→(500000,0) has length 500000 > MAX_VELOCITY, yet it lies in a single
grid cell, so the very first over-length `Line` call takes the fast path
before the velocity check and logs nothing (and leaves the latch unset) —
contradicting "the first call whose segment length exceeds MAX_VELOCITY emits
exactly one log message". -/
theorem C9_counterexample :
    ((500000 : Int) - 0) * ((500000 : Int) - 0) + ((0 : Int) - 0) * ((0 : Int) - 0)
        > MAX_VELOCITY * MAX_VELOCITY ∧
    (exSetBig.Line false 0 0 500000 0 none exFalseEnemy none none).logs = 0 ∧
    (exSetBig.Line false 0 0 500000 0 none exFalseEnemy none none).warned = false := by decide

/-! ## The `Closest` record against the mask-test trace -/

theorem closestInv_init (cap : Rat) : ClosestInv cap ⟨cap, none⟩ [] := by
  constructor
  · intro b h
    cases h
  · intro _
    exact ⟨rfl, by simp⟩

theorem closestInv_step {cap : Rat} {c : Closest} {tr : List (Nat × Rat)} (b : Nat) (f : Rat)
    (h : ClosestInv cap c tr) : ClosestInv cap (c.TryNearer f b) (tr ++ [(b, f)]) := by
  obtain ⟨hs, hn⟩ := h
  unfold Closest.TryNearer
  split
  · next hle =>
    constructor
    · intro b' hb'
      obtain ⟨h1, h2, h3⟩ := hs b' hb'
      refine ⟨h1, by simp [h2], ?_⟩
      intro p hp
      rcases List.mem_append.1 hp with hp | hp
      · exact h3 p hp
      · rcases List.mem_singleton.1 hp with rfl
        exact hle
    · intro hb
      obtain ⟨h1, h2⟩ := hn hb
      refine ⟨h1, ?_⟩
      intro p hp
      rcases List.mem_append.1 hp with hp | hp
      · exact h2 p hp
      · rcases List.mem_singleton.1 hp with rfl
        exact h1 ▸ hle
  · next hlt =>
    push_neg at hlt
    have hfc : f < cap := by
      rcases hc : c.closest_body with _ | b₀
      · exact (hn hc).1 ▸ hlt
      · exact lt_trans hlt (hs b₀ hc).1
    constructor
    · intro b' hb'
      have hb'' : b' = b := by
        have := hb'
        simp only [Option.some.injEq] at this
        exact this.symm
      subst hb''
      refine ⟨hfc, by simp, ?_⟩
      intro p hp
      rcases List.mem_append.1 hp with hp | hp
      · rcases hc : c.closest_body with _ | b₀
        · exact le_trans (le_of_lt hlt) ((hn hc).1 ▸ (hn hc).2 p hp)
        · exact le_trans (le_of_lt hlt) ((hs b₀ hc).2.2 p hp)
      · rcases List.mem_singleton.1 hp with rfl
        exact le_refl _
    · intro hb
      cases hb

theorem scanS_closestInv (cs : CollisionSet) (fx fy tx ty gx gy : Int)
    (ie : Nat → Nat → Bool) (pg tgt : Option Nat) (epoch : Nat) (cap : Rat) :
    ∀ (es : List Entry) (a : StepAcc), ClosestInv cap a.closer a.trace →
      ClosestInv cap (lineScanS cs fx fy tx ty gx gy ie pg tgt epoch es a).closer
        (lineScanS cs fx fy tx ty gx gy ie pg tgt epoch es a).trace := by
  intro es
  induction es with
  | nil =>
    intro a h
    simpa [lineScanS] using h
  | cons e es ih =>
    intro a h
    rw [lineScanS]
    split
    · exact ih a h
    · split
      · exact ih a h
      · split
        · exact ih _ h
        · exact ih _ (closestInv_step e.body _ h)

theorem scanF_closestInv (cs : CollisionSet) (fx fy tx ty gx gy : Int)
    (ie : Nat → Nat → Bool) (pg tgt : Option Nat) (cap : Rat) :
    ∀ (es : List Entry) (a : ScanAcc), ClosestInv cap a.closer a.trace →
      ClosestInv cap (lineScanF cs fx fy tx ty gx gy ie pg tgt es a).closer
        (lineScanF cs fx fy tx ty gx gy ie pg tgt es a).trace := by
  intro es
  induction es with
  | nil =>
    intro a h
    simpa [lineScanF] using h
  | cons e es ih =>
    intro a h
    rw [lineScanF]
    split
    · exact ih a h
    · split
      · exact ih _ h
      · exact ih _ (closestInv_step e.body _ h)

theorem loop_closestInv (cs : CollisionSet) (fx fy tx ty endGX endGY stepX stepY : Int)
    (mx my fullScale : Nat) (ie : Nat → Nat → Bool) (pg tgt : Option Nat) (epoch : Nat)
    (cap : Rat) :
    ∀ (fuel : Nat) (gx gy : Int) (rx ry : Nat) (a : StepAcc),
      ClosestInv cap a.closer a.trace →
      ClosestInv cap
        (lineLoop cs fx fy tx ty endGX endGY stepX stepY mx my fullScale ie pg tgt epoch
          fuel gx gy rx ry a).closer
        (lineLoop cs fx fy tx ty endGX endGY stepX stepY mx my fullScale ie pg tgt epoch
          fuel gx gy rx ry a).trace := by
  intro fuel
  induction fuel with
  | zero =>
    intro gx gy rx ry a h
    simpa [lineLoop] using h
  | succ fuel ih =>
    intro gx gy rx ry a h
    simp only [lineLoop]
    have h' := scanS_closestInv cs fx fy tx ty gx gy ie pg tgt epoch cap
      (cs.binEntries (binOfXY cs.CELLS gx gy)) a h
    split
    · exact h'
    · split
      · split
        · exact h'
        · exact ih _ _ _ _ _ h'
      · split
        · exact ih _ _ _ _ _ h'
        · exact ih _ _ _ _ _ h'

/-- The specification of `LineNoClamp` relating its result, final distance,
write-back and trace: the returned body is a tested body whose fraction is the
strict minimum below the cap; a null return means no tested fraction was below
the cap; the `closestHit` write-back is exactly the conditional final write of
the source. -/
theorem lineNoClamp_spec (cs : CollisionSet) (fx fy tx ty : Int) (ch : Option Rat)
    (ie : Nat → Nat → Bool) (pg tgt : Option Nat) :
    (∀ b, (cs.LineNoClamp fx fy tx ty ch ie pg tgt).result = some b →
      (cs.LineNoClamp fx fy tx ty ch ie pg tgt).dist < ch.getD 1 ∧
      (b, (cs.LineNoClamp fx fy tx ty ch ie pg tgt).dist) ∈
        (cs.LineNoClamp fx fy tx ty ch ie pg tgt).trace ∧
      ∀ p ∈ (cs.LineNoClamp fx fy tx ty ch ie pg tgt).trace,
        (cs.LineNoClamp fx fy tx ty ch ie pg tgt).dist ≤ p.2) ∧
    ((cs.LineNoClamp fx fy tx ty ch ie pg tgt).result = none →
      (cs.LineNoClamp fx fy tx ty ch ie pg tgt).dist = ch.getD 1 ∧
      ∀ p ∈ (cs.LineNoClamp fx fy tx ty ch ie pg tgt).trace,
        ch.getD 1 ≤ p.2) ∧
    ((cs.LineNoClamp fx fy tx ty ch ie pg tgt).closestHit =
      if (cs.LineNoClamp fx fy tx ty ch ie pg tgt).dist < 1 ∧ ch.isSome
      then some (cs.LineNoClamp fx fy tx ty ch ie pg tgt).dist else ch) := by
  simp only [CollisionSet.LineNoClamp]
  split
  · have h := scanF_closestInv cs fx fy tx ty (shr fx cs.SHIFT) (shr fy cs.SHIFT) ie pg tgt
      (ch.getD 1)
      (cs.binEntries (binOfXY cs.CELLS (shr fx cs.SHIFT) (shr fy cs.SHIFT)))
      ⟨⟨ch.getD 1, none⟩, [], []⟩ (closestInv_init _)
    exact ⟨h.1, h.2, rfl⟩
  · refine ⟨?_, ?_, rfl⟩
    · exact (loop_closestInv cs fx fy tx ty _ _ _ _ _ _ _ ie pg tgt _ (ch.getD 1)
        _ _ _ _ _ _ (closestInv_init _)).1
    · exact (loop_closestInv cs fx fy tx ty _ _ _ _ _ _ _ ie pg tgt _ (ch.getD 1)
        _ _ _ _ _ _ (closestInv_init _)).2

/-- The same specification lifted to the full `Line` call (it delegates to
`LineNoClamp` on the original or the clamped segment in every branch, with the
same cap and `closestHit` argument). -/
theorem line_spec (cs : CollisionSet) (w : Bool) (fx fy tx ty : Int) (ch : Option Rat)
    (ie : Nat → Nat → Bool) (pg tgt : Option Nat) :
    (∀ b, (cs.Line w fx fy tx ty ch ie pg tgt).out.result = some b →
      (cs.Line w fx fy tx ty ch ie pg tgt).out.dist < ch.getD 1 ∧
      (b, (cs.Line w fx fy tx ty ch ie pg tgt).out.dist) ∈
        (cs.Line w fx fy tx ty ch ie pg tgt).out.trace ∧
      ∀ p ∈ (cs.Line w fx fy tx ty ch ie pg tgt).out.trace,
        (cs.Line w fx fy tx ty ch ie pg tgt).out.dist ≤ p.2) ∧
    ((cs.Line w fx fy tx ty ch ie pg tgt).out.result = none →
      (cs.Line w fx fy tx ty ch ie pg tgt).out.dist = ch.getD 1 ∧
      ∀ p ∈ (cs.Line w fx fy tx ty ch ie pg tgt).out.trace,
        ch.getD 1 ≤ p.2) ∧
    ((cs.Line w fx fy tx ty ch ie pg tgt).out.closestHit =
      if (cs.Line w fx fy tx ty ch ie pg tgt).out.dist < 1 ∧ ch.isSome
      then some (cs.Line w fx fy tx ty ch ie pg tgt).out.dist else ch) := by
  simp only [CollisionSet.Line]
  split
  · exact lineNoClamp_spec cs fx fy tx ty ch ie pg tgt
  · split
    · exact lineNoClamp_spec cs fx fy _ _ ch ie pg tgt
    · exact lineNoClamp_spec cs fx fy tx ty ch ie pg tgt

/-- C1: amended claim.  `Line` returns the body with the minimum mask
`Collide` fraction *among the bodies actually mask-tested during the query*
whose fraction is strictly below the initial cap (`*closestHit` if given, else
1.0), and returns null exactly when no tested fraction is below the cap.  The
traversal stops after the first cell whose scan records a hit, so a body whose
entries lie only in cells further along the segment may go untested (see the
counterexample); for a single-cell segment the tested bodies are all the
cell's occupants. -/
theorem C1_amended (cs : CollisionSet) (w : Bool) (fx fy tx ty : Int) (ch : Option Rat)
    (ie : Nat → Nat → Bool) (pg tgt : Option Nat) :
    (∀ b, (cs.Line w fx fy tx ty ch ie pg tgt).out.result = some b →
      ((b, (cs.Line w fx fy tx ty ch ie pg tgt).out.dist) ∈
          (cs.Line w fx fy tx ty ch ie pg tgt).out.trace ∧
        (cs.Line w fx fy tx ty ch ie pg tgt).out.dist < ch.getD 1 ∧
        ∀ p ∈ (cs.Line w fx fy tx ty ch ie pg tgt).out.trace,
          (cs.Line w fx fy tx ty ch ie pg tgt).out.dist ≤ p.2)) ∧
    ((cs.Line w fx fy tx ty ch ie pg tgt).out.result = none →
      ∀ p ∈ (cs.Line w fx fy tx ty ch ie pg tgt).out.trace, ch.getD 1 ≤ p.2) := by
  obtain ⟨hs, hn, _⟩ := line_spec cs w fx fy tx ty ch ie pg tgt
  constructor
  · intro b hb
    obtain ⟨h1, h2, h3⟩ := hs b hb
    exact ⟨h2, h1, h3⟩
  · intro hb
    exact (hn hb).2

/-- C1: witness.  On the two-body example, the returned body 0 is indeed a
tested body whose fraction is minimal among the tested fractions and below
the cap. -/
theorem C1_witness :
    ((0 : Nat), (exSetAB.Line false 0 8 40 8 none exFalseEnemy none none).out.dist) ∈
      (exSetAB.Line false 0 8 40 8 none exFalseEnemy none none).out.trace ∧
    (exSetAB.Line false 0 8 40 8 none exFalseEnemy none none).out.dist <
      (none : Option Rat).getD 1 ∧
    ∀ p ∈ (exSetAB.Line false 0 8 40 8 none exFalseEnemy none none).out.trace,
      (exSetAB.Line false 0 8 40 8 none exFalseEnemy none none).out.dist ≤ p.2 :=
  (C1_amended exSetAB false 0 8 40 8 none exFalseEnemy none none).1 0 (by decide)

/-- C2: amended claim.  For a `Line` call with a non-null `closestHit` whose
incoming value is `h0`: when null is returned, `*closestHit` is unchanged (for
every `h0`); when a body is returned and `h0 ≤ 1` (the incoming value is a
fraction), `*closestHit` becomes `min h0 h1`, where `h1` is the returned
body's collision fraction (the final best distance).  The counterexample
shows the `min` equation fails for `h0 > 1`, because the write-back only
happens below 1.0. -/
theorem C2_amended (cs : CollisionSet) (w : Bool) (fx fy tx ty : Int) (h0 : Rat)
    (ie : Nat → Nat → Bool) (pg tgt : Option Nat) :
    ((cs.Line w fx fy tx ty (some h0) ie pg tgt).out.result = none →
      (cs.Line w fx fy tx ty (some h0) ie pg tgt).out.closestHit = some h0) ∧
    (∀ b, (cs.Line w fx fy tx ty (some h0) ie pg tgt).out.result = some b → h0 ≤ 1 →
      (cs.Line w fx fy tx ty (some h0) ie pg tgt).out.closestHit =
        some (min h0 (cs.Line w fx fy tx ty (some h0) ie pg tgt).out.dist)) := by
  obtain ⟨hs, hn, hw⟩ := line_spec cs w fx fy tx ty (some h0) ie pg tgt
  constructor
  · intro hb
    obtain ⟨h1, _⟩ := hn hb
    rw [hw, h1]
    simp only [Option.getD_some]
    split
    · rfl
    · rfl
  · intro b hb hle
    obtain ⟨h1, _, _⟩ := hs b hb
    simp only [Option.getD_some] at h1
    have hd1 : (cs.Line w fx fy tx ty (some h0) ie pg tgt).out.dist < 1 := lt_of_lt_of_le h1 hle
    have hmin : min h0 (cs.Line w fx fy tx ty (some h0) ie pg tgt).out.dist =
        (cs.Line w fx fy tx ty (some h0) ie pg tgt).out.dist :=
      min_eq_right (le_of_lt h1)
    rw [hw, hmin]
    simp [hd1]

/-- C2: witness.  With incoming cap 1/2 and the single body reporting
fraction 3/2, nothing is recorded, `Line` returns null and `*closestHit`
stays 1/2. -/
theorem C2_witness :
    (exSetC.Line false 0 8 9 8 (some (Rat.divInt 1 2)) exFalseEnemy none none).out.closestHit =
      some (Rat.divInt 1 2) :=
  (C2_amended exSetC false 0 8 9 8 (Rat.divInt 1 2) exFalseEnemy none none).1 (by decide)

/-! ## Epoch and seen-vector frame properties -/

theorem lineNoClamp_seenEpoch (cs : CollisionSet) (fx fy tx ty : Int) (ch : Option Rat)
    (ie : Nat → Nat → Bool) (pg tgt : Option Nat) :
    (cs.LineNoClamp fx fy tx ty ch ie pg tgt).seenEpoch =
      if shr fx cs.SHIFT = shr tx cs.SHIFT ∧ shr fy cs.SHIFT = shr ty cs.SHIFT
      then cs.seenEpoch else (cs.seenEpoch + 1) % EPOCH_MOD := by
  simp only [CollisionSet.LineNoClamp]
  split
  · next h =>
    simp only [Bool.and_eq_true, beq_iff_eq] at h
    simp [h.1, h.2]
  · next h =>
    have hc : ¬(shr fx cs.SHIFT = shr tx cs.SHIFT ∧ shr fy cs.SHIFT = shr ty cs.SHIFT) := by
      intro hc
      exact h (by simp [hc.1, hc.2])
    simp [hc]

theorem scanS_seen_frame (cs : CollisionSet) (fx fy tx ty gx gy : Int)
    (ie : Nat → Nat → Bool) (pg tgt : Option Nat) (epoch : Nat) :
    ∀ (es : List Entry) (a : StepAcc) (i : Nat),
      (lineScanS cs fx fy tx ty gx gy ie pg tgt epoch es a).seen.getD i 0 = a.seen.getD i 0 ∨
      (lineScanS cs fx fy tx ty gx gy ie pg tgt epoch es a).seen.getD i 0 = epoch := by
  intro es
  induction es with
  | nil =>
    intro a i
    simp [lineScanS]
  | cons e es ih =>
    intro a i
    rw [lineScanS]
    split
    · exact ih a i
    · split
      · exact ih a i
      · have hset : ∀ (a' : StepAcc), a'.seen = a.seen.setD e.seenIndex epoch →
            (lineScanS cs fx fy tx ty gx gy ie pg tgt epoch es a').seen.getD i 0 =
              a.seen.getD i 0 ∨
            (lineScanS cs fx fy tx ty gx gy ie pg tgt epoch es a').seen.getD i 0 = epoch := by
          intro a' ha'
          rcases ih a' i with h | h
          · rw [h, ha', getD_setD]
            split
            · exact Or.inr rfl
            · exact Or.inl rfl
          · exact Or.inr h
        split
        · exact hset _ rfl
        · exact hset _ rfl

theorem loop_seen_frame (cs : CollisionSet) (fx fy tx ty endGX endGY stepX stepY : Int)
    (mx my fullScale : Nat) (ie : Nat → Nat → Bool) (pg tgt : Option Nat) (epoch : Nat) :
    ∀ (fuel : Nat) (gx gy : Int) (rx ry : Nat) (a : StepAcc) (i : Nat),
      (lineLoop cs fx fy tx ty endGX endGY stepX stepY mx my fullScale ie pg tgt epoch
        fuel gx gy rx ry a).seen.getD i 0 = a.seen.getD i 0 ∨
      (lineLoop cs fx fy tx ty endGX endGY stepX stepY mx my fullScale ie pg tgt epoch
        fuel gx gy rx ry a).seen.getD i 0 = epoch := by
  intro fuel
  induction fuel with
  | zero =>
    intro gx gy rx ry a i
    simp [lineLoop]
  | succ fuel ih =>
    intro gx gy rx ry a i
    simp only [lineLoop]
    have hs := scanS_seen_frame cs fx fy tx ty gx gy ie pg tgt epoch
      (cs.binEntries (binOfXY cs.CELLS gx gy)) a i
    have htrans : ∀ (a' : StepAcc),
        (a'.seen.getD i 0 = a.seen.getD i 0 ∨ a'.seen.getD i 0 = epoch) →
        ∀ (gx' gy' : Int) (rx' ry' : Nat),
          (lineLoop cs fx fy tx ty endGX endGY stepX stepY mx my fullScale ie pg tgt epoch
            fuel gx' gy' rx' ry' a').seen.getD i 0 = a.seen.getD i 0 ∨
          (lineLoop cs fx fy tx ty endGX endGY stepX stepY mx my fullScale ie pg tgt epoch
            fuel gx' gy' rx' ry' a').seen.getD i 0 = epoch := by
      intro a' ha' gx' gy' rx' ry'
      rcases ih gx' gy' rx' ry' a' i with h | h
      · rw [h]
        exact ha'
      · exact Or.inr h
    split
    · exact hs
    · split
      · split
        · exact hs
        · exact htrans _ hs _ _ _ _
      · split
        · exact htrans _ hs _ _ _ _
        · exact htrans _ hs _ _ _ _

theorem ringScan_seen_frame (cs : CollisionSet) (cx cy : Int) (inner outer : Rat)
    (epoch : Nat) (x y : Int) :
    ∀ (es : List Entry) (a : RingAcc) (i : Nat),
      (ringScanCell cs cx cy inner outer epoch x y es a).seen.getD i 0 = a.seen.getD i 0 ∨
      (ringScanCell cs cx cy inner outer epoch x y es a).seen.getD i 0 = epoch := by
  intro es
  induction es with
  | nil =>
    intro a i
    simp [ringScanCell]
  | cons e es ih =>
    intro a i
    rw [ringScanCell]
    split
    · exact ih a i
    · split
      · exact ih a i
      · have hset : ∀ (a' : RingAcc), a'.seen = a.seen.setD e.seenIndex epoch →
            (ringScanCell cs cx cy inner outer epoch x y es a').seen.getD i 0 =
              a.seen.getD i 0 ∨
            (ringScanCell cs cx cy inner outer epoch x y es a').seen.getD i 0 = epoch := by
          intro a' ha'
          rcases ih a' i with h | h
          · rw [h, ha', getD_setD]
            split
            · exact Or.inr rfl
            · exact Or.inl rfl
          · exact Or.inr h
        split
        · exact hset _ rfl
        · exact hset _ rfl

theorem ringRow_seen_frame (cs : CollisionSet) (cx cy : Int) (inner outer : Rat)
    (epoch : Nat) (y : Int) :
    ∀ (xs : List Int) (a : RingAcc) (i : Nat),
      ((xs.foldl (fun a x => ringScanCell cs cx cy inner outer epoch x y
        (cs.binEntries (binOfXY cs.CELLS x y)) a) a)).seen.getD i 0 = a.seen.getD i 0 ∨
      ((xs.foldl (fun a x => ringScanCell cs cx cy inner outer epoch x y
        (cs.binEntries (binOfXY cs.CELLS x y)) a) a)).seen.getD i 0 = epoch := by
  intro xs
  induction xs with
  | nil =>
    intro a i
    exact Or.inl rfl
  | cons x xs ih =>
    intro a i
    rw [List.foldl_cons]
    rcases ih (ringScanCell cs cx cy inner outer epoch x y
      (cs.binEntries (binOfXY cs.CELLS x y)) a) i with h | h
    · rw [h]
      exact ringScan_seen_frame cs cx cy inner outer epoch x y _ a i
    · exact Or.inr h

theorem ringGrid_seen_frame (cs : CollisionSet) (cx cy : Int) (inner outer : Rat)
    (epoch : Nat) (minX maxX : Int) :
    ∀ (ys : List Int) (a : RingAcc) (i : Nat),
      ((ys.foldl (fun a y => (rangeInt minX maxX).foldl
        (fun a x => ringScanCell cs cx cy inner outer epoch x y
          (cs.binEntries (binOfXY cs.CELLS x y)) a) a) a)).seen.getD i 0 = a.seen.getD i 0 ∨
      ((ys.foldl (fun a y => (rangeInt minX maxX).foldl
        (fun a x => ringScanCell cs cx cy inner outer epoch x y
          (cs.binEntries (binOfXY cs.CELLS x y)) a) a) a)).seen.getD i 0 = epoch := by
  intro ys
  induction ys with
  | nil =>
    intro a i
    exact Or.inl rfl
  | cons y ys ih =>
    intro a i
    rw [List.foldl_cons]
    rcases ih ((rangeInt minX maxX).foldl (fun a x => ringScanCell cs cx cy inner outer epoch x y
      (cs.binEntries (binOfXY cs.CELLS x y)) a) a) i with h | h
    · rw [h]
      exact ringRow_seen_frame cs cx cy inner outer epoch y _ a i
    · exact Or.inr h

/-- C7: amended claim.  Every `Ring` (hence `Circle`) call increments
`seenEpoch` exactly once (modulo the width of the counter); a `Line` call
increments it exactly once when the start and end grid cells of the effective
(possibly clamped) segment differ, and leaves it unchanged when they coincide
— the single-cell fast path returns before `++seenEpoch` (see the
counterexample). -/
theorem C7_amended :
    (∀ (cs : CollisionSet) (cx cy : Int) (inner outer : Rat),
      (cs.Ring cx cy inner outer).seenEpoch = (cs.seenEpoch + 1) % EPOCH_MOD) ∧
    (∀ (cs : CollisionSet) (w : Bool) (fx fy tx ty : Int) (ch : Option Rat)
       (ie : Nat → Nat → Bool) (pg tgt : Option Nat),
      (cs.Line w fx fy tx ty ch ie pg tgt).out.seenEpoch =
        if shr fx cs.SHIFT = shr (cs.lineEffEnd fx fy tx ty).1 cs.SHIFT ∧
           shr fy cs.SHIFT = shr (cs.lineEffEnd fx fy tx ty).2 cs.SHIFT
        then cs.seenEpoch else (cs.seenEpoch + 1) % EPOCH_MOD) := by
  constructor
  · intro cs cx cy inner outer
    rfl
  · intro cs w fx fy tx ty ch ie pg tgt
    by_cases h1 : (shr fx cs.SHIFT == shr tx cs.SHIFT && shr fy cs.SHIFT == shr ty cs.SHIFT) = true
    · have he : cs.lineEffEnd fx fy tx ty = (tx, ty) := by
        simp only [CollisionSet.lineEffEnd]
        rw [if_pos h1]
      rw [he]
      simp only [CollisionSet.Line]
      rw [if_pos h1]
      dsimp only
      rw [lineNoClamp_seenEpoch]
    · by_cases h2 : ((tx - fx) * (tx - fx) + (ty - fy) * (ty - fy) >
          MAX_VELOCITY * MAX_VELOCITY)
      · have he : cs.lineEffEnd fx fy tx ty = clampEnd fx fy tx ty := by
          simp only [CollisionSet.lineEffEnd]
          rw [if_neg h1, if_pos h2]
        rw [he]
        simp only [CollisionSet.Line]
        rw [if_neg h1, if_pos h2]
        dsimp only
        rw [lineNoClamp_seenEpoch]
      · have he : cs.lineEffEnd fx fy tx ty = (tx, ty) := by
          simp only [CollisionSet.lineEffEnd]
          rw [if_neg h1, if_neg h2]
        rw [he]
        simp only [CollisionSet.Line]
        rw [if_neg h1, if_neg h2]
        dsimp only
        rw [lineNoClamp_seenEpoch]

/-- C8: amended claim.  Incrementing `seenEpoch` wraps modulo 2^32 with no
re-initialisation of the `seen` vector: after any `Line` or `Ring` query,
every slot of `seen` holds either its previous value or the query's (possibly
wrapped) epoch — the vector is never re-zeroed, so at the wrap a stale marker
equal to the new epoch survives and suppresses bodies (see the
counterexample). -/
theorem C8_amended :
    (∀ (cs : CollisionSet) (w : Bool) (fx fy tx ty : Int) (ch : Option Rat)
       (ie : Nat → Nat → Bool) (pg tgt : Option Nat) (i : Nat),
      (cs.Line w fx fy tx ty ch ie pg tgt).out.seen.getD i 0 = cs.seen.getD i 0 ∨
      (cs.Line w fx fy tx ty ch ie pg tgt).out.seen.getD i 0 =
        (cs.seenEpoch + 1) % EPOCH_MOD) ∧
    (∀ (cs : CollisionSet) (cx cy : Int) (inner outer : Rat) (i : Nat),
      (cs.Ring cx cy inner outer).seen.getD i 0 = cs.seen.getD i 0 ∨
      (cs.Ring cx cy inner outer).seen.getD i 0 = (cs.seenEpoch + 1) % EPOCH_MOD) := by
  constructor
  · have hnc : ∀ (cs : CollisionSet) (fx fy tx ty : Int) (ch : Option Rat)
        (ie : Nat → Nat → Bool) (pg tgt : Option Nat) (i : Nat),
        (cs.LineNoClamp fx fy tx ty ch ie pg tgt).seen.getD i 0 = cs.seen.getD i 0 ∨
        (cs.LineNoClamp fx fy tx ty ch ie pg tgt).seen.getD i 0 =
          (cs.seenEpoch + 1) % EPOCH_MOD := by
      intro cs fx fy tx ty ch ie pg tgt i
      simp only [CollisionSet.LineNoClamp]
      split
      · exact Or.inl rfl
      · exact loop_seen_frame cs fx fy tx ty _ _ _ _ _ _ _ ie pg tgt _ _ _ _ _ _ _ i
    intro cs w fx fy tx ty ch ie pg tgt i
    simp only [CollisionSet.Line]
    split
    · exact hnc cs fx fy tx ty ch ie pg tgt i
    · split
      · exact hnc cs fx fy _ _ ch ie pg tgt i
      · exact hnc cs fx fy tx ty ch ie pg tgt i
  · intro cs cx cy inner outer i
    simp only [CollisionSet.Ring]
    exact ringGrid_seen_frame cs cx cy inner outer _ _ _ _ _ i

/-! ## The warning latch -/

theorem line_logs_spec (cs : CollisionSet) (w : Bool) (fx fy tx ty : Int) (ch : Option Rat)
    (ie : Nat → Nat → Bool) (pg tgt : Option Nat) :
    (cs.Line w fx fy tx ty ch ie pg tgt).logs =
      (if w = false ∧
          ¬(shr fx cs.SHIFT = shr tx cs.SHIFT ∧ shr fy cs.SHIFT = shr ty cs.SHIFT) ∧
          (tx - fx) * (tx - fx) + (ty - fy) * (ty - fy) > MAX_VELOCITY * MAX_VELOCITY
        then 1 else 0) ∧
    (cs.Line w fx fy tx ty ch ie pg tgt).warned =
      (w || (!(shr fx cs.SHIFT == shr tx cs.SHIFT && shr fy cs.SHIFT == shr ty cs.SHIFT) &&
        decide ((tx - fx) * (tx - fx) + (ty - fy) * (ty - fy) >
          MAX_VELOCITY * MAX_VELOCITY))) := by
  simp only [CollisionSet.Line]
  by_cases h1 : (shr fx cs.SHIFT == shr tx cs.SHIFT && shr fy cs.SHIFT == shr ty cs.SHIFT) = true
  · have h1' : shr fx cs.SHIFT = shr tx cs.SHIFT ∧ shr fy cs.SHIFT = shr ty cs.SHIFT := by
      simpa [Bool.and_eq_true, beq_iff_eq] using h1
    simp [h1, h1']
  · have h1' : ¬(shr fx cs.SHIFT = shr tx cs.SHIFT ∧ shr fy cs.SHIFT = shr ty cs.SHIFT) := by
      intro hc
      exact h1 (by simp [hc.1, hc.2])
    by_cases h2 : ((tx - fx) * (tx - fx) + (ty - fy) * (ty - fy) >
        MAX_VELOCITY * MAX_VELOCITY)
    · rcases w with _ | _ <;> simp [h1, h1', h2]
    · rcases w with _ | _ <;> simp [h1, h1', h2]

theorem line_warned_latch (cs : CollisionSet) (fx fy tx ty : Int) (ch : Option Rat)
    (ie : Nat → Nat → Bool) (pg tgt : Option Nat) :
    (cs.Line true fx fy tx ty ch ie pg tgt).logs = 0 ∧
    (cs.Line true fx fy tx ty ch ie pg tgt).warned = true := by
  have h := line_logs_spec cs true fx fy tx ty ch ie pg tgt
  constructor
  · rw [h.1]
    simp
  · rw [h.2]
    simp

theorem runLines_warned (ie : Nat → Nat → Bool) :
    ∀ (calls : List LineCall) (cs : CollisionSet), runLines ie cs true calls = 0 := by
  intro calls
  induction calls with
  | nil =>
    intro cs
    rfl
  | cons c rest ih =>
    intro cs
    rw [runLines]
    rw [(line_warned_latch cs c.fx c.fy c.tx c.ty c.closestHit ie c.pGov c.tgt).1,
      (line_warned_latch cs c.fx c.fy c.tx c.ty c.closestHit ie c.pGov c.tgt).2]
    simpa using ih _

/-- C9: amended claim.  A `Line` call logs the velocity warning exactly when
the latch is unset, the start and end grid cells differ, and the squared
segment length exceeds `MAX_VELOCITY²`; once the latch is set no call ever
logs again, so any sequence of `Line` calls starting with the latch unset
logs at most one message in total.  (The original claim fails because an
over-length segment inside a single grid cell takes the fast path before the
velocity check and logs nothing — see the counterexample.) -/
theorem C9_amended :
    (∀ (ie : Nat → Nat → Bool) (cs : CollisionSet) (calls : List LineCall),
      runLines ie cs true calls = 0) ∧
    (∀ (ie : Nat → Nat → Bool) (cs : CollisionSet) (calls : List LineCall),
      runLines ie cs false calls ≤ 1) ∧
    (∀ (cs : CollisionSet) (w : Bool) (fx fy tx ty : Int) (ch : Option Rat)
       (ie : Nat → Nat → Bool) (pg tgt : Option Nat),
      (cs.Line w fx fy tx ty ch ie pg tgt).logs =
        if w = false ∧
            ¬(shr fx cs.SHIFT = shr tx cs.SHIFT ∧ shr fy cs.SHIFT = shr ty cs.SHIFT) ∧
            (tx - fx) * (tx - fx) + (ty - fy) * (ty - fy) > MAX_VELOCITY * MAX_VELOCITY
          then 1 else 0) := by
  refine ⟨fun ie cs calls => runLines_warned ie calls cs, ?_, ?_⟩
  · intro ie cs calls
    induction calls generalizing cs with
    | nil =>
      simp [runLines]
    | cons c rest ih =>
      rw [runLines]
      have hl := line_logs_spec cs false c.fx c.fy c.tx c.ty c.closestHit ie c.pGov c.tgt
      by_cases hcond : (false = false ∧
          ¬(shr c.fx cs.SHIFT = shr c.tx cs.SHIFT ∧ shr c.fy cs.SHIFT = shr c.ty cs.SHIFT) ∧
          (c.tx - c.fx) * (c.tx - c.fx) + (c.ty - c.fy) * (c.ty - c.fy) >
            MAX_VELOCITY * MAX_VELOCITY)
      · have hlogs : (cs.Line false c.fx c.fy c.tx c.ty c.closestHit ie c.pGov c.tgt).logs = 1 := by
          rw [hl.1, if_pos hcond]
        have hw : (cs.Line false c.fx c.fy c.tx c.ty c.closestHit ie c.pGov c.tgt).warned = true := by
          rw [hl.2]
          have : (shr c.fx cs.SHIFT == shr c.tx cs.SHIFT &&
              shr c.fy cs.SHIFT == shr c.ty cs.SHIFT) = false := by
            rcases hb : (shr c.fx cs.SHIFT == shr c.tx cs.SHIFT &&
              shr c.fy cs.SHIFT == shr c.ty cs.SHIFT) with _ | _
            · rfl
            · exact absurd (by simpa [Bool.and_eq_true, beq_iff_eq] using hb) hcond.2.1
          simp [this, hcond.2.2]
        rw [hlogs, hw, runLines_warned]
      · have hlogs : (cs.Line false c.fx c.fy c.tx c.ty c.closestHit ie c.pGov c.tgt).logs = 0 := by
          rw [hl.1, if_neg hcond]
        rw [hlogs]
        rcases hw : (cs.Line false c.fx c.fy c.tx c.ty c.closestHit ie c.pGov c.tgt).warned with _ | _
        · simpa using ih _
        · simp [runLines_warned ie rest]
  · intro cs w fx fy tx ty ch ie pg tgt
    exact (line_logs_spec cs w fx fy tx ty ch ie pg tgt).1

/-! ## The friend/foe filter -/

theorem scanF_trace_cands (cs : CollisionSet) (fx fy tx ty gx gy : Int)
    (ie : Nat → Nat → Bool) (pg tgt : Option Nat) :
    ∀ (es : List Entry) (a : ScanAcc),
      a.trace = (a.cands.filter
          (fun e => !skipsGov ie (cs.bodyAt e.body).gov pg tgt e.body)).map
        (fun e => (e.body, cs.collideAt fx fy tx ty e.body)) →
      (lineScanF cs fx fy tx ty gx gy ie pg tgt es a).trace =
        ((lineScanF cs fx fy tx ty gx gy ie pg tgt es a).cands.filter
          (fun e => !skipsGov ie (cs.bodyAt e.body).gov pg tgt e.body)).map
        (fun e => (e.body, cs.collideAt fx fy tx ty e.body)) := by
  intro es
  induction es with
  | nil =>
    intro a h
    simpa [lineScanF] using h
  | cons e es ih =>
    intro a h
    rw [lineScanF]
    split
    · exact ih a h
    · split
      · next hskip =>
        refine ih _ ?_
        simp only [List.filter_append, List.map_append, List.filter_cons, hskip]
        simp [h]
      · next hskip =>
        refine ih _ ?_
        have hs : (!skipsGov ie (cs.bodyAt e.body).gov pg tgt e.body) = true := by
          simp only [Bool.not_eq_true']
          exact Bool.of_not_eq_true hskip
        simp only [List.filter_append, List.map_append, List.filter_cons, hs]
        simp [h]

theorem scanS_trace_cands (cs : CollisionSet) (fx fy tx ty gx gy : Int)
    (ie : Nat → Nat → Bool) (pg tgt : Option Nat) (epoch : Nat) :
    ∀ (es : List Entry) (a : StepAcc),
      a.trace = (a.cands.filter
          (fun e => !skipsGov ie (cs.bodyAt e.body).gov pg tgt e.body)).map
        (fun e => (e.body, cs.collideAt fx fy tx ty e.body)) →
      (lineScanS cs fx fy tx ty gx gy ie pg tgt epoch es a).trace =
        ((lineScanS cs fx fy tx ty gx gy ie pg tgt epoch es a).cands.filter
          (fun e => !skipsGov ie (cs.bodyAt e.body).gov pg tgt e.body)).map
        (fun e => (e.body, cs.collideAt fx fy tx ty e.body)) := by
  intro es
  induction es with
  | nil =>
    intro a h
    simpa [lineScanS] using h
  | cons e es ih =>
    intro a h
    rw [lineScanS]
    split
    · exact ih a h
    · split
      · exact ih a h
      · split
        · next hskip =>
          refine ih _ ?_
          simp only [List.filter_append, List.map_append, List.filter_cons, hskip]
          simp [h]
        · next hskip =>
          refine ih _ ?_
          have hs : (!skipsGov ie (cs.bodyAt e.body).gov pg tgt e.body) = true := by
            simp only [Bool.not_eq_true']
            exact Bool.of_not_eq_true hskip
          simp only [List.filter_append, List.map_append, List.filter_cons, hs]
          simp [h]

theorem loop_trace_cands (cs : CollisionSet) (fx fy tx ty endGX endGY stepX stepY : Int)
    (mx my fullScale : Nat) (ie : Nat → Nat → Bool) (pg tgt : Option Nat) (epoch : Nat) :
    ∀ (fuel : Nat) (gx gy : Int) (rx ry : Nat) (a : StepAcc),
      a.trace = (a.cands.filter
          (fun e => !skipsGov ie (cs.bodyAt e.body).gov pg tgt e.body)).map
        (fun e => (e.body, cs.collideAt fx fy tx ty e.body)) →
      (lineLoop cs fx fy tx ty endGX endGY stepX stepY mx my fullScale ie pg tgt epoch
        fuel gx gy rx ry a).trace =
        ((lineLoop cs fx fy tx ty endGX endGY stepX stepY mx my fullScale ie pg tgt epoch
          fuel gx gy rx ry a).cands.filter
          (fun e => !skipsGov ie (cs.bodyAt e.body).gov pg tgt e.body)).map
        (fun e => (e.body, cs.collideAt fx fy tx ty e.body)) := by
  intro fuel
  induction fuel with
  | zero =>
    intro gx gy rx ry a h
    simpa [lineLoop] using h
  | succ fuel ih =>
    intro gx gy rx ry a h
    simp only [lineLoop]
    have h' := scanS_trace_cands cs fx fy tx ty gx gy ie pg tgt epoch
      (cs.binEntries (binOfXY cs.CELLS gx gy)) a h
    split
    · exact h'
    · split
      · split
        · exact h'
        · exact ih _ _ _ _ _ h'
      · split
        · exact ih _ _ _ _ _ h'
        · exact ih _ _ _ _ _ h'

/-- C6: confirmed.  In every `Line` query (the full call delegates every
branch to `LineNoClamp`), the sequence of mask-tested bodies is exactly the
sequence of candidate entries (those reaching the friend/foe check) that pass
it; and the friend/foe check passes precisely when the body is the designated
target, or its government handle is null, or the projectile's government
handle is null, or the two governments are enemies — with non-null,
non-enemy governments on both sides a non-target body is skipped. -/
theorem C6_gov_filter :
    (∀ (cs : CollisionSet) (fx fy tx ty : Int) (ch : Option Rat)
       (ie : Nat → Nat → Bool) (pg tgt : Option Nat),
      (cs.LineNoClamp fx fy tx ty ch ie pg tgt).trace =
        ((cs.LineNoClamp fx fy tx ty ch ie pg tgt).cands.filter
          (fun e => !skipsGov ie (cs.bodyAt e.body).gov pg tgt e.body)).map
        (fun e => (e.body, cs.collideAt fx fy tx ty e.body))) ∧
    (∀ (ie : Nat → Nat → Bool) (ig pg : Nat) (tgt : Option Nat) (bi : Nat),
      skipsGov ie (some ig) (some pg) tgt bi = false ↔ (tgt = some bi ∨ ie ig pg = true)) ∧
    (∀ (ie : Nat → Nat → Bool) (pg tgt : Option Nat) (bi : Nat),
      skipsGov ie none pg tgt bi = false) ∧
    (∀ (ie : Nat → Nat → Bool) (ig tgt : Option Nat) (bi : Nat),
      skipsGov ie ig none tgt bi = false) := by
  refine ⟨?_, ?_, ?_, ?_⟩
  · intro cs fx fy tx ty ch ie pg tgt
    simp only [CollisionSet.LineNoClamp]
    split
    · exact scanF_trace_cands cs fx fy tx ty _ _ ie pg tgt _ ⟨⟨ch.getD 1, none⟩, [], []⟩
        (by simp)
    · exact loop_trace_cands cs fx fy tx ty _ _ _ _ _ _ _ ie pg tgt _ _ _ _ _ _
        ⟨⟨ch.getD 1, none⟩, [], [], cs.seen⟩ (by simp)
  · intro ie ig pg tgt bi
    simp only [skipsGov, Bool.and_eq_false_iff]
    constructor
    · intro h
      rcases h with h | h
      · left
        rcases htgt : tgt with _ | t
        · subst htgt
          simp at h
        · have : (some bi != tgt) = false := h
          rw [htgt] at this
          simp only [bne_eq_false_iff_eq, Option.some.injEq] at this
          rw [this]
      · right
        simpa using h
    · intro h
      rcases h with h | h
      · left
        simp [h]
      · right
        simp [h]
  · intro ie pg tgt bi
    rfl
  · intro ie ig tgt bi
    rcases ig with _ | g
    · rfl
    · rfl

/-! ## The footprint of `Add` -/

theorem rangeInt_nodup (lo hi : Int) : (rangeInt lo hi).Nodup := by
  unfold rangeInt
  refine List.Nodup.map ?_ (List.nodup_range _)
  intro i j h
  exact Nat.cast_inj.mp (add_left_cancel h)

theorem mem_boxCells {minX maxX minY maxY x y : Int} :
    (x, y) ∈ boxCells minX maxX minY maxY ↔
      minX ≤ x ∧ x ≤ maxX ∧ minY ≤ y ∧ y ≤ maxY := by
  unfold boxCells
  simp only [List.mem_flatMap, List.mem_map, Prod.mk.injEq]
  constructor
  · rintro ⟨y', hy', x', hx', rfl, rfl⟩
    have h1 := mem_rangeInt.1 hy'
    have h2 := mem_rangeInt.1 hx'
    exact ⟨h2.1, h2.2, h1.1, h1.2⟩
  · rintro ⟨h1, h2, h3, h4⟩
    exact ⟨y, mem_rangeInt.2 ⟨h3, h4⟩, x, mem_rangeInt.2 ⟨h1, h2⟩, rfl, rfl⟩

theorem boxCells_nodup (minX maxX minY maxY : Int) :
    (boxCells minX maxX minY maxY).Nodup := by
  unfold boxCells
  rw [List.nodup_flatMap]
  constructor
  · intro y _
    refine List.Nodup.map ?_ (rangeInt_nodup _ _)
    intro a b h
    exact (Prod.ext_iff.1 h).1
  · have : ∀ y₁ y₂ : Int, y₁ ≠ y₂ →
        List.Disjoint ((rangeInt minX maxX).map (fun x => (x, y₁)))
          ((rangeInt minX maxX).map (fun x => (x, y₂))) := by
      intro y₁ y₂ hne p hp1 hp2
      simp only [List.mem_map] at hp1 hp2
      obtain ⟨x₁, _, rfl⟩ := hp1
      obtain ⟨x₂, _, he⟩ := hp2
      exact hne (Prod.ext_iff.1 he.symm).2
    refine List.Pairwise.imp_of_mem ?_ (rangeInt_nodup minY maxY)
    intro y₁ y₂ _ _ hne
    exact this y₁ y₂ hne

theorem filter_pair_length (x y : Int) :
    ∀ (l : List (Int × Int)), l.Nodup →
      (l.filter (fun p => p.1 == x && p.2 == y)).length = if (x, y) ∈ l then 1 else 0 := by
  intro l
  induction l with
  | nil =>
    intro _
    simp
  | cons p l ih =>
    intro hn
    rw [List.filter_cons]
    by_cases hp : p = (x, y)
    · subst hp
      simp only [beq_self_eq_true, Bool.and_self, if_true]
      have hnot : ((x, y) : Int × Int) ∉ l := (List.nodup_cons.1 hn).1
      simp [ih (List.nodup_cons.1 hn).2, hnot]
    · have hc : (p.1 == x && p.2 == y) = false := by
        rcases hb : (p.1 == x && p.2 == y) with _ | _
        · rfl
        · simp only [Bool.and_eq_true, beq_iff_eq] at hb
          exact absurd (Prod.ext hb.1 hb.2) hp
      rw [hc]
      simp only [Bool.false_eq_true, if_false]
      have hmem : ((x, y) ∈ p :: l) ↔ ((x, y) ∈ l) := by
        simp only [List.mem_cons]
        constructor
        · rintro (h | h)
          · exact absurd h.symm hp
          · exact h
        · exact Or.inr
      rw [ih (List.nodup_cons.1 hn).2]
      by_cases hm : ((x, y) : Int × Int) ∈ l
      · simp [hm, hmem]
      · simp [hm, hmem]

theorem counts_fold_getD (cells : Nat) :
    ∀ (l : List Entry) (c : Array Nat), (∀ e ∈ l, e.bin cells + 2 < c.size) → ∀ (k : Nat),
      (l.foldl (fun c e => c.setD (e.bin cells + 2) (c.getD (e.bin cells + 2) 0 + 1)) c).getD
          k 0 =
        c.getD k 0 + (l.filter (fun e => e.bin cells + 2 == k)).length := by
  intro l
  induction l with
  | nil =>
    intro c _ k
    simp
  | cons e l ih =>
    intro c hb k
    rw [List.foldl_cons, List.filter_cons]
    have hsz : ∀ e' ∈ l, e'.bin cells + 2 <
        (c.setD (e.bin cells + 2) (c.getD (e.bin cells + 2) 0 + 1)).size := by
      intro e' he'
      rw [Array.size_setD]
      exact hb e' (List.mem_cons_of_mem _ he')
    rw [ih _ hsz k]
    rw [getD_setD]
    by_cases hk : e.bin cells + 2 = k
    · have hin : e.bin cells + 2 < c.size := hb e (List.mem_cons_self _ _)
      rw [if_pos ⟨hk, hin⟩]
      have : (e.bin cells + 2 == k) = true := by
        simp [hk]
      rw [this]
      simp only [if_true, List.length_cons]
      subst hk
      omega
    · rw [if_neg (fun h => hk h.1)]
      have : (e.bin cells + 2 == k) = false := by
        simp [hk]
      rw [this]
      simp

theorem add_added_eq (cs : CollisionSet) (b : Body) :
    (cs.Add b).added = cs.added ++
      (boxCells (shr (b.posX - b.radius) cs.SHIFT) (shr (b.posX + b.radius) cs.SHIFT)
        (shr (b.posY - b.radius) cs.SHIFT) (shr (b.posY + b.radius) cs.SHIFT)).map
      (fun p => Entry.mk cs.all.length cs.all.length p.1 p.2) := by
  simp only [CollisionSet.Add, boxCells]
  rw [List.map_flatMap]
  simp only [List.map_map, Function.comp_def]

theorem wrap_lt (cells : Nat) (hc : 0 < cells) (a : Int) : wrap a cells < cells := by
  unfold wrap
  have hne : ((cells : Int)) ≠ 0 := by
    exact_mod_cast hc.ne'
  have h1 : Int.emod a cells < cells := Int.emod_lt_of_pos a (by exact_mod_cast hc)
  have h2 : 0 ≤ Int.emod a cells := Int.emod_nonneg a hne
  omega

theorem binOfXY_lt (cells : Nat) (hc : 0 < cells) (x y : Int) :
    binOfXY cells x y < cells * cells := by
  unfold binOfXY
  have h1 := wrap_lt cells hc x
  have h2 := wrap_lt cells hc y
  have h3 : wrap y cells * cells + wrap x cells < (wrap y cells + 1) * cells := by
    rw [Nat.succ_mul]
    omega
  have h4 : (wrap y cells + 1) * cells ≤ cells * cells :=
    Nat.mul_le_mul_right cells (by omega)
  exact lt_of_lt_of_le h3 h4

theorem shr_eq_fdiv_cellsize (cs : CollisionSet) (a : Int) :
    shr a cs.SHIFT = Int.fdiv a (cs.CELL_SIZE : Int) := by
  unfold shr CollisionSet.CELL_SIZE
  norm_num

/-- C5: confirmed.  `Add` appends exactly one pending entry for each grid
cell in the closed box `[minX..maxX] × [minY..maxY]`, where
`minX = floor((px - r) / CELL_SIZE)` (floor division, i.e. arithmetic right
shift) and analogously for the other bounds, and no other entries; every new
entry carries the body's dense index, and the histogram slot of each covered
cell's wrapped bin (offset by the two sentinels) is incremented once per
covered cell that wraps to it. -/
theorem C5_add_footprint (cs : CollisionSet) (b : Body)
    (hsize : cs.counts.size = cs.CELLS * cs.CELLS + 2) (hcells : 0 < cs.CELLS) :
    (∀ x y : Int,
      ((x, y) ∈ boxCells (Int.fdiv (b.posX - b.radius) (cs.CELL_SIZE : Int))
          (Int.fdiv (b.posX + b.radius) (cs.CELL_SIZE : Int))
          (Int.fdiv (b.posY - b.radius) (cs.CELL_SIZE : Int))
          (Int.fdiv (b.posY + b.radius) (cs.CELL_SIZE : Int)) ↔
        Int.fdiv (b.posX - b.radius) (cs.CELL_SIZE : Int) ≤ x ∧
          x ≤ Int.fdiv (b.posX + b.radius) (cs.CELL_SIZE : Int) ∧
          Int.fdiv (b.posY - b.radius) (cs.CELL_SIZE : Int) ≤ y ∧
          y ≤ Int.fdiv (b.posY + b.radius) (cs.CELL_SIZE : Int))) ∧
    (∀ x y : Int,
      ((cs.Add b).added.filter (fun e => e.x == x && e.y == y)).length =
        (cs.added.filter (fun e => e.x == x && e.y == y)).length +
          (if (x, y) ∈ boxCells (Int.fdiv (b.posX - b.radius) (cs.CELL_SIZE : Int))
              (Int.fdiv (b.posX + b.radius) (cs.CELL_SIZE : Int))
              (Int.fdiv (b.posY - b.radius) (cs.CELL_SIZE : Int))
              (Int.fdiv (b.posY + b.radius) (cs.CELL_SIZE : Int))
            then 1 else 0)) ∧
    (∀ e ∈ (cs.Add b).added, e ∈ cs.added ∨
      (e.body = cs.all.length ∧ e.seenIndex = cs.all.length ∧
        (e.x, e.y) ∈ boxCells (Int.fdiv (b.posX - b.radius) (cs.CELL_SIZE : Int))
          (Int.fdiv (b.posX + b.radius) (cs.CELL_SIZE : Int))
          (Int.fdiv (b.posY - b.radius) (cs.CELL_SIZE : Int))
          (Int.fdiv (b.posY + b.radius) (cs.CELL_SIZE : Int)))) ∧
    (∀ bin : Nat, bin < cs.CELLS * cs.CELLS →
      (cs.Add b).counts.getD (bin + 2) 0 =
        cs.counts.getD (bin + 2) 0 +
          ((boxCells (Int.fdiv (b.posX - b.radius) (cs.CELL_SIZE : Int))
              (Int.fdiv (b.posX + b.radius) (cs.CELL_SIZE : Int))
              (Int.fdiv (b.posY - b.radius) (cs.CELL_SIZE : Int))
              (Int.fdiv (b.posY + b.radius) (cs.CELL_SIZE : Int))).filter
            (fun p => binOfXY cs.CELLS p.1 p.2 == bin)).length) := by
  have hbox : ∀ a : Int, Int.fdiv a (cs.CELL_SIZE : Int) = shr a cs.SHIFT :=
    fun a => (shr_eq_fdiv_cellsize cs a).symm
  refine ⟨?_, ?_, ?_, ?_⟩
  · intro x y
    exact mem_boxCells
  · intro x y
    rw [add_added_eq, List.filter_append, List.length_append]
    congr 1
    rw [List.filter_map]
    rw [List.length_map]
    have hpred : ((fun e : Entry => e.x == x && e.y == y) ∘
        (fun p : Int × Int => Entry.mk cs.all.length cs.all.length p.1 p.2)) =
        (fun p : Int × Int => p.1 == x && p.2 == y) := rfl
    rw [hpred, filter_pair_length x y _ (boxCells_nodup _ _ _ _)]
    simp only [hbox]
  · intro e he
    rw [add_added_eq] at he
    rcases List.mem_append.1 he with he | he
    · exact Or.inl he
    · right
      simp only [List.mem_map] at he
      obtain ⟨p, hp, rfl⟩ := he
      refine ⟨rfl, rfl, ?_⟩
      simp only [hbox]
      exact hp
  · intro bin hbin
    have hadd : (cs.Add b).counts = ((boxCells (shr (b.posX - b.radius) cs.SHIFT)
        (shr (b.posX + b.radius) cs.SHIFT) (shr (b.posY - b.radius) cs.SHIFT)
        (shr (b.posY + b.radius) cs.SHIFT)).map
          (fun p => Entry.mk cs.all.length cs.all.length p.1 p.2)).foldl
        (fun c e => c.setD (e.bin cs.CELLS + 2) (c.getD (e.bin cs.CELLS + 2) 0 + 1))
        cs.counts := by
      simp only [CollisionSet.Add, boxCells]
      rw [List.map_flatMap]
      simp only [List.map_map, Function.comp_def]
    rw [hadd]
    rw [counts_fold_getD cs.CELLS _ cs.counts ?hb (bin + 2)]
    case hb =>
      intro e _
      rw [hsize]
      have : e.bin cs.CELLS < cs.CELLS * cs.CELLS := binOfXY_lt cs.CELLS hcells e.x e.y
      omega
    congr 1
    rw [List.filter_map, List.length_map]
    have hpred : ((fun e : Entry => e.bin cs.CELLS + 2 == bin + 2) ∘
        (fun p : Int × Int => Entry.mk cs.all.length cs.all.length p.1 p.2)) =
        (fun p : Int × Int => binOfXY cs.CELLS p.1 p.2 + 2 == bin + 2) := rfl
    rw [hpred]
    have : ∀ p : Int × Int, (binOfXY cs.CELLS p.1 p.2 + 2 == bin + 2) =
        (binOfXY cs.CELLS p.1 p.2 == bin) := by
      intro p
      rcases hb : (binOfXY cs.CELLS p.1 p.2 == bin) with _ | _
      · simp only [beq_eq_false_iff_ne, ne_eq] at hb
        simp [hb]
      · simp only [beq_iff_eq] at hb
        simp [hb]
    simp only [this, hbox]

/-- C5: witness.  A concrete instance on the example index: the body at
(20, 8) with radius 6 on a 16-unit grid covers exactly cells (0,0) and
(1,0). -/
theorem C5_witness :
    ((((mkSet 16 4).Clear 0).Add exBodyA).added.filter
        (fun e => e.x == 0 && e.y == 0)).length =
      ((((mkSet 16 4).Clear 0).added.filter (fun e => e.x == 0 && e.y == 0)).length +
        (if ((0 : Int), (0 : Int)) ∈ boxCells
            (Int.fdiv (exBodyA.posX - exBodyA.radius) ((((mkSet 16 4).Clear 0).CELL_SIZE : Int)))
            (Int.fdiv (exBodyA.posX + exBodyA.radius) ((((mkSet 16 4).Clear 0).CELL_SIZE : Int)))
            (Int.fdiv (exBodyA.posY - exBodyA.radius) ((((mkSet 16 4).Clear 0).CELL_SIZE : Int)))
            (Int.fdiv (exBodyA.posY + exBodyA.radius) ((((mkSet 16 4).Clear 0).CELL_SIZE : Int)))
          then 1 else 0)) :=
  (C5_add_footprint ((mkSet 16 4).Clear 0) exBodyA (by decide) (by decide)).2.1 0 0

/-! ## The counting sort of `Finish` -/

theorem cnt_append (cells : Nat) (l₁ l₂ : List Entry) (b : Nat) :
    cnt cells (l₁ ++ l₂) b = cnt cells l₁ b + cnt cells l₂ b := by
  unfold cnt
  rw [List.filter_append, List.length_append]

theorem cnt_cons (cells : Nat) (e : Entry) (l : List Entry) (b : Nat) :
    cnt cells (e :: l) b = cnt cells l b + (if e.bin cells = b then 1 else 0) := by
  unfold cnt
  rw [List.filter_cons]
  by_cases h : e.bin cells = b
  · simp [h]
  · simp [h]

theorem off_succ (cells : Nat) (l : List Entry) (b : Nat) :
    off cells l (b + 1) = off cells l b + cnt cells l b := by
  unfold off
  rw [Finset.sum_range_succ]

theorem off_mono (cells : Nat) (l : List Entry) {a b : Nat} (h : a ≤ b) :
    off cells l a ≤ off cells l b := by
  unfold off
  exact Finset.sum_le_sum_of_subset (Finset.range_subset.2 h)

theorem off_full (cells : Nat) (hc : 0 < cells) (l : List Entry) :
    off cells l (cells * cells) = l.length := by
  induction l with
  | nil =>
    unfold off cnt
    simp
  | cons e l ih =>
    unfold off at *
    have hcnt : ∀ b, cnt cells (e :: l) b = cnt cells l b + (if e.bin cells = b then 1 else 0) :=
      cnt_cons cells e l
    simp only [hcnt]
    rw [Finset.sum_add_distrib, ih]
    have hbin : e.bin cells ∈ Finset.range (cells * cells) :=
      Finset.mem_range.2 (binOfXY_lt cells hc e.x e.y)
    rw [Finset.sum_ite_eq (Finset.range (cells * cells)) (e.bin cells) (fun _ => 1),
      if_pos hbin]
    simp

theorem cnt_le_full (cells : Nat) (done todo : List Entry) (b : Nat) :
    cnt cells done b ≤ cnt cells (done ++ todo) b := by
  rw [cnt_append]
  omega

theorem runningTotals_length : ∀ (l : List Nat) (acc : Nat),
    (runningTotals acc l).length = l.length := by
  intro l
  induction l with
  | nil =>
    intro acc
    rfl
  | cons x xs ih =>
    intro acc
    simp [runningTotals, ih]

theorem runningTotals_getD : ∀ (l : List Nat) (acc k : Nat), k < l.length →
    (runningTotals acc l).getD k 0 = acc + ∑ j ∈ Finset.range (k + 1), l.getD j 0 := by
  intro l
  induction l with
  | nil =>
    intro acc k h
    simp at h
  | cons x xs ih =>
    intro acc k h
    rcases k with _ | k
    · simp [runningTotals, List.getD]
    · rw [runningTotals]
      have hk : k < xs.length := by
        simpa using h
      have : (runningTotals (acc + x) xs).getD k 0 =
          (acc + x) + ∑ j ∈ Finset.range (k + 1), xs.getD j 0 := ih (acc + x) k hk
      have hcons : ((x :: xs) : List Nat).getD (k + 1) 0 = xs.getD k 0 := rfl
      have hshift : ∑ j ∈ Finset.range (k + 2), ((x :: xs) : List Nat).getD j 0 =
          (∑ j ∈ Finset.range (k + 1), xs.getD j 0) + x := by
        rw [Finset.sum_range_succ' (fun j => ((x :: xs) : List Nat).getD j 0) (k + 1)]
        rfl
      calc ((runningTotals acc (x :: xs)).getD (k + 1) 0)
          = (runningTotals (acc + x) xs).getD k 0 := rfl
        _ = (acc + x) + ∑ j ∈ Finset.range (k + 1), xs.getD j 0 := this
        _ = acc + ((∑ j ∈ Finset.range (k + 1), xs.getD j 0) + x) := by omega
        _ = acc + ∑ j ∈ Finset.range (k + 2), ((x :: xs) : List Nat).getD j 0 := by
            rw [hshift]

theorem toArray_getD (l : List Nat) (i : Nat) (d : Nat) : (l.toArray).getD i d = l.getD i d := by
  rw [getD_toList, Array.toList_toArray]

theorem mkArray_getD {α : Type} (n : Nat) (v : α) (i : Nat) (d : α) :
    (Array.mkArray n v).getD i d = if i < n then v else d := by
  rw [getD_toList, Array.toList_mkArray]
  by_cases h : i < n
  · rw [List.getD_eq_getElem?_getD]
    rw [List.getElem?_eq_getElem (by simpa using h)]
    simp [List.getElem_replicate, h]
  · rw [List.getD_eq_getElem?_getD]
    have : (List.replicate n v)[i]? = none := by
      rw [List.getElem?_eq_none]
      simpa using Nat.le_of_not_lt h
    rw [this]
    simp [h]

theorem cnt_singleton (cells : Nat) (e : Entry) (b : Nat) :
    cnt cells [e] b = if e.bin cells = b then 1 else 0 := by
  have h := cnt_cons cells e [] b
  have h0 : cnt cells ([] : List Entry) b = 0 := rfl
  omega

/-- The placement pass of the counting sort: processing the remaining entries
keeps the write cursors at `bin start + number placed`, and fills each bin's
slice with that bin's entries in arrival order. -/
theorem radix_inv (cells : Nat) (hc : 0 < cells) (full : List Entry) :
    ∀ (todo done : List Entry) (s : Array Entry) (c : Array Nat),
      full = done ++ todo →
      c.size = cells * cells + 2 →
      c.getD 0 0 = 0 →
      (∀ b, b < cells * cells → c.getD (b + 1) 0 = off cells full b + cnt cells done b) →
      s.size = full.length →
      (∀ b, b < cells * cells → ∀ i, i < cnt cells done b →
        s.getD (off cells full b + i) default =
          (done.filter (fun e => e.bin cells == b)).getD i default) →
      (radixPass cells todo s c).2.getD 0 0 = 0 ∧
      (∀ b, b < cells * cells →
        (radixPass cells todo s c).2.getD (b + 1) 0 = off cells full (b + 1)) ∧
      (radixPass cells todo s c).1.size = full.length ∧
      (∀ b, b < cells * cells → ∀ i, i < cnt cells full b →
        (radixPass cells todo s c).1.getD (off cells full b + i) default =
          (full.filter (fun e => e.bin cells == b)).getD i default) := by
  intro todo
  induction todo with
  | nil =>
    intro done s c hfull hcsize hc0 hc1 hssize hsv
    have hdone : done = full := by
      rw [hfull, List.append_nil]
    subst hdone
    simp only [radixPass]
    refine ⟨hc0, ?_, hssize, ?_⟩
    · intro b hb
      rw [hc1 b hb, off_succ]
    · intro b hb i hi
      exact hsv b hb i hi
  | cons e rest ih =>
    intro done s c hfull hcsize hc0 hc1 hssize hsv
    simp only [radixPass]
    have hb0lt : e.bin cells < cells * cells := binOfXY_lt cells hc e.x e.y
    have hpos : c.getD (e.bin cells + 1) 0 =
        off cells full (e.bin cells) + cnt cells done (e.bin cells) := hc1 _ hb0lt
    have hcnte : cnt cells (e :: rest) (e.bin cells) = cnt cells rest (e.bin cells) + 1 := by
      rw [cnt_cons]
      simp
    have hcntlt : cnt cells done (e.bin cells) < cnt cells full (e.bin cells) := by
      rw [hfull, cnt_append, hcnte]
      omega
    have hposlt : c.getD (e.bin cells + 1) 0 < full.length := by
      rw [hpos]
      have h1 : off cells full (e.bin cells) + cnt cells full (e.bin cells) =
          off cells full (e.bin cells + 1) := (off_succ cells full (e.bin cells)).symm
      have h2 : off cells full (e.bin cells + 1) ≤ off cells full (cells * cells) :=
        off_mono cells full hb0lt
      rw [off_full cells hc full] at h2
      omega
    refine ih (done ++ [e]) _ _ ?_ ?_ ?_ ?_ ?_ ?_
    · rw [hfull, List.append_assoc]
      rfl
    · rw [Array.size_setD]
      exact hcsize
    · rw [getD_setD, if_neg]
      · exact hc0
      · intro h
        omega
    · intro b hb
      rw [getD_setD]
      by_cases hbb : b = e.bin cells
      · subst hbb
        rw [if_pos ⟨rfl, by omega⟩, hpos, cnt_append, cnt_singleton, if_pos rfl]
        omega
      · rw [if_neg (fun h => hbb (by omega)), hc1 b hb, cnt_append, cnt_singleton,
          if_neg (fun h => hbb h.symm)]
        omega
    · rw [Array.size_setD]
      exact hssize
    · intro b hb i hi
      have hlenf : ∀ (l : List Entry) (b' : Nat),
          (l.filter (fun x => x.bin cells == b')).length = cnt cells l b' := fun _ _ => rfl
      rw [cnt_append, cnt_singleton] at hi
      by_cases hbb : b = e.bin cells
      · subst hbb
        rw [if_pos rfl] at hi
        rcases Nat.lt_or_ge i (cnt cells done (e.bin cells)) with hilt | hige
        · -- an earlier slot of the bin: untouched by the write
          rw [getD_setD, if_neg]
          · rw [hsv _ hb i hilt, List.filter_append, List.getD_append]
            rw [hlenf]
            exact hilt
          · intro hcontra
            rw [hpos] at hcontra
            omega
        · -- the newly written slot
          have hieq : i = cnt cells done (e.bin cells) := by omega
          subst hieq
          rw [getD_setD, if_pos]
          · rw [List.filter_append, List.getD_append_right]
            · rw [List.filter_cons, if_pos (by simp), hlenf]
              simp
            · rw [hlenf]
            -- nothing
          · constructor
            · omega
            · rw [hssize]
              exact hposlt
      · rw [if_neg (fun h => hbb h.symm)] at hi
        rw [getD_setD, if_neg]
        · rw [hsv b hb i (by omega), List.filter_append, List.getD_append]
          rw [hlenf]
          omega
        · intro hcontra
          obtain ⟨hc1', _⟩ := hcontra
          rw [hpos] at hc1'
          rcases Nat.lt_or_ge b (e.bin cells) with hblt | hbge
          · have h1 : off cells full b + i < off cells full (b + 1) := by
              rw [off_succ]
              have : cnt cells done b ≤ cnt cells full b := by
                rw [hfull]
                exact cnt_le_full cells done (e :: rest) b
              omega
            have h2 : off cells full (b + 1) ≤ off cells full (e.bin cells) :=
              off_mono cells full hblt
            omega
          · have hblt' : e.bin cells < b := by omega
            have h1 : off cells full (e.bin cells) + cnt cells done (e.bin cells) <
                off cells full (e.bin cells + 1) := by
              rw [off_succ]
              omega
            have h2 : off cells full (e.bin cells + 1) ≤ off cells full b :=
              off_mono cells full hblt'
            omega

theorem counts_fold_size (cells : Nat) :
    ∀ (l : List Entry) (c : Array Nat),
      (l.foldl (fun c e => c.setD (e.bin cells + 2) (c.getD (e.bin cells + 2) 0 + 1)) c).size =
        c.size := by
  intro l
  induction l with
  | nil =>
    intro c
    rfl
  | cons e l ih =>
    intro c
    rw [List.foldl_cons, ih, Array.size_setD]

theorem add_step (cs : CollisionSet) (b : Body) (hc : 0 < cs.CELLS)
    (hsz : cs.counts.size = cs.CELLS * cs.CELLS + 2)
    (h0 : cs.counts.getD 0 0 = 0) (h1 : cs.counts.getD 1 0 = 0)
    (hh : ∀ b' : Nat, b' < cs.CELLS * cs.CELLS →
      cs.counts.getD (b' + 2) 0 = cnt cs.CELLS cs.added b')
    (hent : ∀ e ∈ cs.added, e.body = e.seenIndex ∧ e.seenIndex < cs.all.length)
    (hpw : List.Pairwise entryRel cs.added) :
    (cs.Add b).counts.size = cs.CELLS * cs.CELLS + 2 ∧
    (cs.Add b).counts.getD 0 0 = 0 ∧ (cs.Add b).counts.getD 1 0 = 0 ∧
    (∀ b' : Nat, b' < cs.CELLS * cs.CELLS →
      (cs.Add b).counts.getD (b' + 2) 0 = cnt cs.CELLS (cs.Add b).added b') ∧
    (∀ e ∈ (cs.Add b).added, e.body = e.seenIndex ∧ e.seenIndex < (cs.Add b).all.length) ∧
    List.Pairwise entryRel (cs.Add b).added := by
  have hbox := add_added_eq cs b
  have hnew : (cs.Add b).added = cs.added ++
      ((boxCells (shr (b.posX - b.radius) cs.SHIFT) (shr (b.posX + b.radius) cs.SHIFT)
        (shr (b.posY - b.radius) cs.SHIFT) (shr (b.posY + b.radius) cs.SHIFT)).map
      (fun p => Entry.mk cs.all.length cs.all.length p.1 p.2)) := hbox
  have hcounts : (cs.Add b).counts = (((boxCells (shr (b.posX - b.radius) cs.SHIFT)
      (shr (b.posX + b.radius) cs.SHIFT) (shr (b.posY - b.radius) cs.SHIFT)
      (shr (b.posY + b.radius) cs.SHIFT)).map
        (fun p => Entry.mk cs.all.length cs.all.length p.1 p.2)).foldl
      (fun c e => c.setD (e.bin cs.CELLS + 2) (c.getD (e.bin cs.CELLS + 2) 0 + 1))
      cs.counts) := by
    simp only [CollisionSet.Add, boxCells]
    rw [List.map_flatMap]
    simp only [List.map_map, Function.comp_def]
  have hinb : ∀ e ∈ ((boxCells (shr (b.posX - b.radius) cs.SHIFT)
      (shr (b.posX + b.radius) cs.SHIFT) (shr (b.posY - b.radius) cs.SHIFT)
      (shr (b.posY + b.radius) cs.SHIFT)).map
        (fun p => Entry.mk cs.all.length cs.all.length p.1 p.2)),
      e.bin cs.CELLS + 2 < cs.counts.size := by
    intro e _
    rw [hsz]
    have hlt : e.bin cs.CELLS < cs.CELLS * cs.CELLS := binOfXY_lt cs.CELLS hc e.x e.y
    omega
  refine ⟨?_, ?_, ?_, ?_, ?_, ?_⟩
  · rw [hcounts, counts_fold_size, hsz]
  · rw [hcounts, counts_fold_getD cs.CELLS _ cs.counts hinb 0]
    have : (((boxCells (shr (b.posX - b.radius) cs.SHIFT) (shr (b.posX + b.radius) cs.SHIFT)
        (shr (b.posY - b.radius) cs.SHIFT) (shr (b.posY + b.radius) cs.SHIFT)).map
        (fun p => Entry.mk cs.all.length cs.all.length p.1 p.2)).filter
        (fun e => e.bin cs.CELLS + 2 == 0)) = [] := by
      rw [List.filter_eq_nil_iff]
      intro e _
      simp
    rw [this]
    simpa using h0
  · rw [hcounts, counts_fold_getD cs.CELLS _ cs.counts hinb 1]
    have : (((boxCells (shr (b.posX - b.radius) cs.SHIFT) (shr (b.posX + b.radius) cs.SHIFT)
        (shr (b.posY - b.radius) cs.SHIFT) (shr (b.posY + b.radius) cs.SHIFT)).map
        (fun p => Entry.mk cs.all.length cs.all.length p.1 p.2)).filter
        (fun e => e.bin cs.CELLS + 2 == 1)) = [] := by
      rw [List.filter_eq_nil_iff]
      intro e _
      simp
    rw [this]
    simpa using h1
  · intro b' hb'
    rw [hcounts, counts_fold_getD cs.CELLS _ cs.counts hinb (b' + 2), hh b' hb', hnew,
      cnt_append]
    congr 1
    unfold cnt
    congr 1
    apply List.filter_congr
    intro e _
    rcases hbeq : (e.bin cs.CELLS == b') with _ | _
    · simp only [beq_eq_false_iff_ne, ne_eq] at hbeq
      simp [hbeq]
    · simp only [beq_iff_eq] at hbeq
      simp [hbeq]
  · intro e he
    rw [hnew] at he
    rcases List.mem_append.1 he with he | he
    · obtain ⟨h1', h2'⟩ := hent e he
      refine ⟨h1', ?_⟩
      have : (cs.Add b).all.length = cs.all.length + 1 := by
        simp [CollisionSet.Add]
      omega
    · simp only [List.mem_map] at he
      obtain ⟨p, _, rfl⟩ := he
      refine ⟨rfl, ?_⟩
      have h2' : (cs.Add b).all.length = cs.all.length + 1 := by
        simp [CollisionSet.Add]
      have h3' : (Entry.mk cs.all.length cs.all.length p.1 p.2).seenIndex =
          cs.all.length := rfl
      omega
  · rw [hnew, List.pairwise_append]
    refine ⟨hpw, ?_, ?_⟩
    · rw [List.pairwise_map]
      refine List.Pairwise.imp ?_ (boxCells_nodup _ _ _ _)
      intro p q hpq
      intro _
      simpa using hpq
    · intro e₁ he₁ e₂ he₂
      simp only [List.mem_map] at he₂
      obtain ⟨p, _, rfl⟩ := he₂
      intro hidx
      exact absurd hidx (by
        have h4' := (hent e₁ he₁).2
        have h5' : (Entry.mk cs.all.length cs.all.length p.1 p.2).seenIndex =
            cs.all.length := rfl
        omega)

theorem foldAdd_inv :
    ∀ (bodies : List Body) (cs : CollisionSet),
      0 < cs.CELLS →
      cs.counts.size = cs.CELLS * cs.CELLS + 2 →
      cs.counts.getD 0 0 = 0 →
      cs.counts.getD 1 0 = 0 →
      (∀ b' : Nat, b' < cs.CELLS * cs.CELLS →
        cs.counts.getD (b' + 2) 0 = cnt cs.CELLS cs.added b') →
      (∀ e ∈ cs.added, e.body = e.seenIndex ∧ e.seenIndex < cs.all.length) →
      List.Pairwise entryRel cs.added →
      (bodies.foldl CollisionSet.Add cs).CELLS = cs.CELLS ∧
      (bodies.foldl CollisionSet.Add cs).SHIFT = cs.SHIFT ∧
      (bodies.foldl CollisionSet.Add cs).counts.size = cs.CELLS * cs.CELLS + 2 ∧
      (bodies.foldl CollisionSet.Add cs).counts.getD 0 0 = 0 ∧
      (bodies.foldl CollisionSet.Add cs).counts.getD 1 0 = 0 ∧
      (∀ b' : Nat, b' < cs.CELLS * cs.CELLS →
        (bodies.foldl CollisionSet.Add cs).counts.getD (b' + 2) 0 =
          cnt cs.CELLS (bodies.foldl CollisionSet.Add cs).added b') ∧
      (∀ e ∈ (bodies.foldl CollisionSet.Add cs).added,
        e.body = e.seenIndex ∧ e.seenIndex < (bodies.foldl CollisionSet.Add cs).all.length) ∧
      List.Pairwise entryRel (bodies.foldl CollisionSet.Add cs).added := by
  intro bodies
  induction bodies with
  | nil =>
    intro cs hc hsz h0 h1 hh hent hpw
    exact ⟨rfl, rfl, hsz, h0, h1, hh, hent, hpw⟩
  | cons b bodies ih =>
    intro cs hc hsz h0 h1 hh hent hpw
    rw [List.foldl_cons]
    obtain ⟨s1, s2, s3, s4, s5, s6⟩ := add_step cs b hc hsz h0 h1 hh hent hpw
    exact ih (cs.Add b) hc s1 s2 s3 s4 s5 s6

theorem slice_eq (cells : Nat) (full : List Entry) (s : Array Entry)
    (hsize : s.size = full.length)
    (hoffN : off cells full (cells * cells) = full.length)
    (hvals : ∀ b, b < cells * cells → ∀ i, i < cnt cells full b →
      s.getD (off cells full b + i) default =
        (full.filter (fun e => e.bin cells == b)).getD i default)
    (b : Nat) (hb : b < cells * cells) :
    (s.toList.drop (off cells full b)).take (cnt cells full b) =
      full.filter (fun e => e.bin cells == b) := by
  have hlenf : (full.filter (fun e => e.bin cells == b)).length = cnt cells full b := rfl
  have hup : off cells full b + cnt cells full b ≤ full.length := by
    rw [← off_succ]
    calc off cells full (b + 1) ≤ off cells full (cells * cells) :=
          off_mono cells full (by omega)
      _ = full.length := hoffN
  apply List.ext_getElem?
  intro j
  rw [List.getElem?_take]
  by_cases hj : j < cnt cells full b
  · rw [if_pos hj, List.getElem?_drop]
    have hlt : off cells full b + j < s.toList.length := by
      rw [Array.length_toList, hsize]
      omega
    have hlt2 : j < (full.filter (fun e => e.bin cells == b)).length := by
      omega
    rw [List.getElem?_eq_getElem hlt, List.getElem?_eq_getElem hlt2]
    have hv := hvals b hb j hj
    rw [getD_toList] at hv
    rw [List.getD_eq_getElem?_getD, List.getElem?_eq_getElem hlt] at hv
    rw [List.getD_eq_getElem?_getD, List.getElem?_eq_getElem hlt2] at hv
    simpa using hv
  · rw [if_neg hj]
    symm
    rw [List.getElem?_eq_none]
    omega

theorem sorted_flatten (cells : Nat) (full : List Entry) (s : Array Entry)
    (hsize : s.size = full.length)
    (hoffN : off cells full (cells * cells) = full.length)
    (hvals : ∀ b, b < cells * cells → ∀ i, i < cnt cells full b →
      s.getD (off cells full b + i) default =
        (full.filter (fun e => e.bin cells == b)).getD i default) :
    s.toList = (List.range (cells * cells)).flatMap
      (fun b => full.filter (fun e => e.bin cells == b)) := by
  have haux : ∀ (m k : Nat), k + m = cells * cells →
      s.toList.drop (off cells full k) =
        (List.range' k m).flatMap (fun b => full.filter (fun e => e.bin cells == b)) := by
    intro m
    induction m with
    | zero =>
      intro k hk
      have hkn : k = cells * cells := by omega
      subst hkn
      rw [List.drop_eq_nil_of_le]
      · rfl
      · rw [Array.length_toList, hsize, ← hoffN]
    | succ m ih =>
      intro k hk
      have hkn : k < cells * cells := by omega
      have hs := slice_eq cells full s hsize hoffN hvals k hkn
      have hdecomp : s.toList.drop (off cells full k) =
          (s.toList.drop (off cells full k)).take (cnt cells full k) ++
          (s.toList.drop (off cells full k)).drop (cnt cells full k) :=
        (List.take_append_drop _ _).symm
      rw [hdecomp, hs, List.drop_drop, ← off_succ, ih (k + 1) (by omega),
        List.range'_succ, List.flatMap_cons]
  have h0 := haux (cells * cells) 0 (by omega)
  have hoff0 : off cells full 0 = 0 := by
    unfold off
    simp
  rw [hoff0, List.drop_zero] at h0
  rw [h0, List.range_eq_range']

theorem flatten_perm (cells : Nat) (hc : 0 < cells) (full : List Entry) :
    ((List.range (cells * cells)).flatMap
      (fun b => full.filter (fun e => e.bin cells == b))).Perm full := by
  rw [List.perm_iff_count]
  intro a
  rw [List.flatMap_def, List.count_flatten, List.map_map]
  have h2 : ((List.count a) ∘ (fun b => full.filter (fun e => e.bin cells == b))) =
      (fun b => if a.bin cells = b then List.count a full else 0) := by
    funext b
    simp only [Function.comp_apply]
    by_cases hab : a.bin cells = b
    · rw [if_pos hab]
      apply List.count_filter
      simp [hab]
    · rw [if_neg hab]
      rw [List.count_eq_zero]
      intro hmem
      have hf := List.of_mem_filter hmem
      simp only [beq_iff_eq] at hf
      exact hab hf
  rw [h2]
  have h3 : ((List.range (cells * cells)).map
      (fun b => if a.bin cells = b then List.count a full else 0)).sum =
      ∑ b ∈ Finset.range (cells * cells),
        (if a.bin cells = b then List.count a full else 0) := rfl
  rw [h3, Finset.sum_ite_eq]
  rw [if_pos (Finset.mem_range.2 (show a.bin cells < cells * cells from
    binOfXY_lt cells hc a.x a.y))]

/-- `Finish` of a state whose `counts` hold the (sentinel-offset) histogram of
its pending entries: the final `counts` hold the bin offsets and `sorted` is
the bin-wise concatenation of the pending entries. -/
theorem finish_spec (cs1 : CollisionSet) (hc : 0 < cs1.CELLS)
    (hsz : cs1.counts.size = cs1.CELLS * cs1.CELLS + 2)
    (h0 : cs1.counts.getD 0 0 = 0) (h1 : cs1.counts.getD 1 0 = 0)
    (hh : ∀ b' : Nat, b' < cs1.CELLS * cs1.CELLS →
      cs1.counts.getD (b' + 2) 0 = cnt cs1.CELLS cs1.added b') :
    (∀ k : Nat, k ≤ cs1.CELLS * cs1.CELLS →
      (cs1.Finish).counts.getD k 0 = off cs1.CELLS cs1.added k) ∧
    (cs1.Finish).sorted.size = cs1.added.length ∧
    (cs1.Finish).sorted.toList = (List.range (cs1.CELLS * cs1.CELLS)).flatMap
      (fun b => cs1.added.filter (fun e => e.bin cs1.CELLS == b)) := by
  have hlist_len : cs1.counts.toList.length = cs1.CELLS * cs1.CELLS + 2 := by
    rw [Array.length_toList, hsz]
  have hinit_size : ((runningTotals 0 cs1.counts.toList).toArray).size =
      cs1.CELLS * cs1.CELLS + 2 := by
    rw [Array.size_toArray, runningTotals_length, hlist_len]
  have hinit0 : ((runningTotals 0 cs1.counts.toList).toArray).getD 0 0 = 0 := by
    rw [toArray_getD, runningTotals_getD _ _ 0 (by omega)]
    rw [Finset.sum_range_one, ← getD_toList, h0]
  have hinit1 : ∀ b : Nat, b < cs1.CELLS * cs1.CELLS →
      ((runningTotals 0 cs1.counts.toList).toArray).getD (b + 1) 0 =
        off cs1.CELLS cs1.added b + cnt cs1.CELLS ([] : List Entry) b := by
    intro b hb
    rw [toArray_getD, runningTotals_getD _ _ (b + 1) (by omega)]
    have e1 : ∑ j ∈ Finset.range (b + 2), cs1.counts.toList.getD j 0 =
        (∑ j ∈ Finset.range (b + 1), cs1.counts.toList.getD (j + 1) 0) +
          cs1.counts.toList.getD 0 0 :=
      Finset.sum_range_succ' _ (b + 1)
    have e2 : ∑ j ∈ Finset.range (b + 1), cs1.counts.toList.getD (j + 1) 0 =
        (∑ j ∈ Finset.range b, cs1.counts.toList.getD (j + 2) 0) +
          cs1.counts.toList.getD 1 0 :=
      Finset.sum_range_succ' _ b
    have e3 : ∑ j ∈ Finset.range b, cs1.counts.toList.getD (j + 2) 0 =
        ∑ j ∈ Finset.range b, cnt cs1.CELLS cs1.added j :=
      Finset.sum_congr rfl (fun j hj => by
        rw [← getD_toList]
        exact hh j (by
          have := Finset.mem_range.1 hj
          omega))
    have e4 : cs1.counts.toList.getD 0 0 = 0 := by
      rw [← getD_toList, h0]
    have e5 : cs1.counts.toList.getD 1 0 = 0 := by
      rw [← getD_toList, h1]
    rw [e1, e2, e3, e4, e5]
    have e6 : cnt cs1.CELLS ([] : List Entry) b = 0 := rfl
    have e7 : off cs1.CELLS cs1.added b = ∑ j ∈ Finset.range b, cnt cs1.CELLS cs1.added j :=
      rfl
    omega
  have hradix := radix_inv cs1.CELLS hc cs1.added cs1.added []
    (Array.mkArray cs1.added.length default)
    ((runningTotals 0 cs1.counts.toList).toArray)
    rfl hinit_size hinit0 hinit1
    (by rw [Array.size_mkArray])
    (by
      intro b hb i hi
      exact absurd hi (by simp [cnt]))
  obtain ⟨r1, r2, r3, r4⟩ := hradix
  have hcounts_eq : (cs1.Finish).counts = (radixPass cs1.CELLS cs1.added
      (Array.mkArray cs1.added.length default)
      ((runningTotals 0 cs1.counts.toList).toArray)).2 := rfl
  have hsorted_eq : (cs1.Finish).sorted = (radixPass cs1.CELLS cs1.added
      (Array.mkArray cs1.added.length default)
      ((runningTotals 0 cs1.counts.toList).toArray)).1 := rfl
  refine ⟨?_, ?_, ?_⟩
  · intro k hk
    rcases k with _ | b
    · rw [hcounts_eq, r1]
      unfold off
      simp
    · rw [hcounts_eq, r2 b (by omega)]
  · rw [hsorted_eq, r3]
  · rw [hsorted_eq]
    exact sorted_flatten cs1.CELLS cs1.added _ r3 (off_full cs1.CELLS hc cs1.added) r4

/-- The complete characterization of a built index: the final `counts` hold
the bin offsets, `sorted` is the bin-wise concatenation of the pending
entries (hence a permutation of them), the pending entries carry in-range
dense indices with at most one entry per (body, cell), and `seen` matches
`all`. -/
theorem build_spec (cellSize cellCount : Nat) (tick : Int) (bodies : List Body) :
    0 < (build cellSize cellCount tick bodies).CELLS ∧
    (∀ k : Nat, k ≤ (build cellSize cellCount tick bodies).CELLS *
        (build cellSize cellCount tick bodies).CELLS →
      (build cellSize cellCount tick bodies).counts.getD k 0 =
        off (build cellSize cellCount tick bodies).CELLS
          (build cellSize cellCount tick bodies).added k) ∧
    ((build cellSize cellCount tick bodies).sorted.toList =
      (List.range ((build cellSize cellCount tick bodies).CELLS *
          (build cellSize cellCount tick bodies).CELLS)).flatMap
        (fun b => (build cellSize cellCount tick bodies).added.filter
          (fun e => e.bin (build cellSize cellCount tick bodies).CELLS == b))) ∧
    ((build cellSize cellCount tick bodies).sorted.toList.Perm
      (build cellSize cellCount tick bodies).added) ∧
    (∀ e ∈ (build cellSize cellCount tick bodies).added,
      e.body = e.seenIndex ∧
        e.seenIndex < (build cellSize cellCount tick bodies).all.length) ∧
    List.Pairwise entryRel (build cellSize cellCount tick bodies).added ∧
    (build cellSize cellCount tick bodies).seen.size =
      (build cellSize cellCount tick bodies).all.length ∧
    (build cellSize cellCount tick bodies).sorted.size =
      (build cellSize cellCount tick bodies).added.length := by
  have hc0 : 0 < ((mkSet cellSize cellCount).Clear tick).CELLS :=
    Nat.pos_pow_of_pos _ (by omega)
  have hstart : ∀ k : Nat,
      ((mkSet cellSize cellCount).Clear tick).counts.getD k 0 = 0 := by
    intro k
    show (Array.mkArray _ (0 : Nat)).getD k 0 = 0
    rw [mkArray_getD]
    split
    · rfl
    · rfl
  obtain ⟨f1, f2, f3, f4, f5, f6, f7, f8⟩ :=
    foldAdd_inv bodies ((mkSet cellSize cellCount).Clear tick) hc0
      (by
        show (Array.mkArray _ (0 : Nat)).size = _
        rw [Array.size_mkArray]
        rfl)
      (hstart 0) (hstart 1)
      (by
        intro b' _
        rw [hstart]
        rfl)
      (by
        intro e he
        cases he)
      List.Pairwise.nil
  have hcells1 : 0 < (bodies.foldl CollisionSet.Add
      ((mkSet cellSize cellCount).Clear tick)).CELLS := by
    rw [f1]
    exact hc0
  rw [← f1] at f3 f6
  obtain ⟨g1, g2, g3⟩ := finish_spec _ hcells1 f3 f4 f5 f6
  have hCELLS : (build cellSize cellCount tick bodies).CELLS =
      (bodies.foldl CollisionSet.Add ((mkSet cellSize cellCount).Clear tick)).CELLS := rfl
  have hadded : (build cellSize cellCount tick bodies).added =
      (bodies.foldl CollisionSet.Add ((mkSet cellSize cellCount).Clear tick)).added := rfl
  have hall : (build cellSize cellCount tick bodies).all =
      (bodies.foldl CollisionSet.Add ((mkSet cellSize cellCount).Clear tick)).all := rfl
  have hflat := g3
  refine ⟨?_, ?_, ?_, ?_, ?_, ?_, ?_, ?_⟩
  · rw [hCELLS]
    exact hcells1
  · exact g1
  · exact g3
  · show ((bodies.foldl CollisionSet.Add
        ((mkSet cellSize cellCount).Clear tick)).Finish).sorted.toList.Perm
      (bodies.foldl CollisionSet.Add ((mkSet cellSize cellCount).Clear tick)).added
    rw [g3]
    exact flatten_perm _ hcells1 _
  · exact f7
  · exact f8
  · show (Array.mkArray (bodies.foldl CollisionSet.Add
        ((mkSet cellSize cellCount).Clear tick)).all.length (0 : Nat)).size = _
    rw [Array.size_mkArray]
    rfl
  · exact g2

theorem flatten_slice (cells : Nat) (full : List Entry) :
    ∀ (b m k : Nat), b < m →
      ((((List.range' k m).flatMap
          (fun j => full.filter (fun e => e.bin cells == j))).drop
        (∑ j ∈ Finset.range b, cnt cells full (k + j))).take (cnt cells full (k + b))) =
        full.filter (fun e => e.bin cells == (k + b)) := by
  intro b
  induction b with
  | zero =>
    intro m k hm
    cases m with
    | zero => omega
    | succ m' =>
      rw [List.range'_succ, List.flatMap_cons]
      simp only [Finset.range_zero, Finset.sum_empty, List.drop_zero, Nat.add_zero]
      have hlen : (full.filter (fun e => e.bin cells == k)).length = cnt cells full k := rfl
      rw [← hlen]
      exact List.take_left _ _
  | succ b ih =>
    intro m k hm
    cases m with
    | zero => omega
    | succ m' =>
      rw [List.range'_succ, List.flatMap_cons]
      rw [Finset.sum_range_succ']
      have hlen : cnt cells full (k + 0) =
          (full.filter (fun e => e.bin cells == k)).length := by
        rw [Nat.add_zero]
        rfl
      rw [Nat.add_comm (∑ j ∈ Finset.range b, cnt cells full (k + (j + 1)))
        (cnt cells full (k + 0)), hlen, List.drop_append]
      have hsum : ∑ j ∈ Finset.range b, cnt cells full (k + (j + 1)) =
          ∑ j ∈ Finset.range b, cnt cells full ((k + 1) + j) :=
        Finset.sum_congr rfl (fun j _ => by
          rw [show k + (j + 1) = (k + 1) + j from by omega])
      have hb2 : k + (b + 1) = (k + 1) + b := by omega
      rw [hsum, hb2]
      exact ih m' (k + 1) (by omega)

theorem flatten_slice0 (cells : Nat) (full : List Entry) (b : Nat)
    (hb : b < cells * cells) :
    (((List.range (cells * cells)).flatMap
        (fun j => full.filter (fun e => e.bin cells == j))).drop
      (off cells full b)).take (cnt cells full b) =
      full.filter (fun e => e.bin cells == b) := by
  have hoff : off cells full b = ∑ j ∈ Finset.range b, cnt cells full (0 + j) := by
    unfold off
    exact Finset.sum_congr rfl (fun j _ => by rw [Nat.zero_add])
  have h := flatten_slice cells full b (cells * cells) 0 hb
  rw [List.range_eq_range', hoff]
  simpa using h

/-- The finalized table of any `build` satisfies the entry invariants used by
the query theorems. -/
theorem build_entriesInv (cellSize cellCount : Nat) (tick : Int)
    (bodies : List Body) : EntriesInv (build cellSize cellCount tick bodies) := by
  obtain ⟨h1, h2, h3, h4, h5, h6, h7, h8⟩ := build_spec cellSize cellCount tick bodies
  have hsymm : Symmetric entryRel := by
    intro e₁ e₂ h12 heq
    intro hp
    exact h12 heq.symm hp.symm
  constructor
  · intro e he
    have hmem := h4.mem_iff.mp he
    have := h5 e hmem
    refine ⟨this.1, ?_⟩
    rw [h7]
    exact this.2
  · exact (List.Perm.pairwise_iff (fun h12 => hsymm h12) h4).mpr h6

/-- C4: after `Finish`, `sorted` is partitioned into `CELLS * CELLS` contiguous
bins delimited by `counts`: every entry in the slice
`[counts[b], counts[b+1])` has wrapped cell coordinates decomposing to bin
`b`, the bin sizes sum to the number of pending entries produced by `Add`,
and every stored entry's dense body index is strictly below `all.size()`. -/
theorem C4_bin_partition (cellSize cellCount : Nat) (tick : Int)
    (bodies : List Body) (cs : CollisionSet)
    (hcs : cs = build cellSize cellCount tick bodies) :
    (∀ b : Nat, b < cs.CELLS * cs.CELLS →
      ∀ e ∈ ((cs.sorted.toList.drop (cs.counts.getD b 0)).take
          (cs.counts.getD (b + 1) 0 - cs.counts.getD b 0)),
        e.bin cs.CELLS = b) ∧
    (∑ b ∈ Finset.range (cs.CELLS * cs.CELLS),
        (cs.counts.getD (b + 1) 0 - cs.counts.getD b 0)) = cs.added.length ∧
    (∀ e ∈ cs.sorted.toList, e.seenIndex < cs.all.length) := by
  subst hcs
  obtain ⟨h1, h2, h3, h4, h5, h6, h7, h8⟩ := build_spec cellSize cellCount tick bodies
  refine ⟨?_, ?_, ?_⟩
  · intro b hb e he
    rw [h2 b (Nat.le_of_lt hb), h2 (b + 1) hb] at he
    have hsub : off (build cellSize cellCount tick bodies).CELLS
        (build cellSize cellCount tick bodies).added (b + 1) -
        off (build cellSize cellCount tick bodies).CELLS
          (build cellSize cellCount tick bodies).added b =
        cnt (build cellSize cellCount tick bodies).CELLS
          (build cellSize cellCount tick bodies).added b := by
      rw [off_succ]
      omega
    rw [hsub, h3, flatten_slice0 _ _ b hb] at he
    exact eq_of_beq (List.mem_filter.1 he).2
  · have hcongr : ∀ b ∈ Finset.range ((build cellSize cellCount tick bodies).CELLS *
        (build cellSize cellCount tick bodies).CELLS),
        (build cellSize cellCount tick bodies).counts.getD (b + 1) 0 -
          (build cellSize cellCount tick bodies).counts.getD b 0 =
        cnt (build cellSize cellCount tick bodies).CELLS
          (build cellSize cellCount tick bodies).added b := by
      intro b hb
      have hb' := Finset.mem_range.1 hb
      rw [h2 b (Nat.le_of_lt hb'), h2 (b + 1) hb', off_succ]
      omega
    rw [Finset.sum_congr rfl hcongr]
    exact off_full _ h1 _
  · intro e he
    exact (h5 e (h4.mem_iff.mp he)).2

/-- Witness for C4 at a concrete two-body index. -/
theorem C4_witness :
    (∑ b ∈ Finset.range (exSetAB.CELLS * exSetAB.CELLS),
        (exSetAB.counts.getD (b + 1) 0 - exSetAB.counts.getD b 0)) =
      exSetAB.added.length :=
  (C4_bin_partition 16 4 0 [exBodyA, exBodyB] exSetAB rfl).2.1

theorem binEntries_mem_sorted (cs : CollisionSet) (i : Nat) {e : Entry}
    (he : e ∈ cs.binEntries i) : e ∈ cs.sorted.toList := by
  unfold CollisionSet.binEntries at he
  exact ((List.take_sublist _ _).trans (List.drop_sublist _ _)).subset he

theorem binEntries_pairwise (cs : CollisionSet)
    (hp : List.Pairwise entryRel cs.sorted.toList) (i : Nat) :
    List.Pairwise entryRel (cs.binEntries i) :=
  hp.sublist ((List.take_sublist _ _).trans (List.drop_sublist _ _))

/-- The fast-path scan never tests the same body twice, provided the entries
carry their dense index and no dense index repeats at one signed cell. -/
theorem scanF_trace_nodup (cs : CollisionSet) (fx fy tx ty gx gy : Int)
    (ie : Nat → Nat → Bool) (pg tgt : Option Nat) :
    ∀ (es : List Entry) (a : ScanAcc),
      (∀ e ∈ es, e.body = e.seenIndex) →
      List.Pairwise entryRel es →
      (∀ j ∈ a.trace.map Prod.fst, ∀ e ∈ es, e.x = gx ∧ e.y = gy → e.body ≠ j) →
      (a.trace.map Prod.fst).Nodup →
      ((lineScanF cs fx fy tx ty gx gy ie pg tgt es a).trace.map Prod.fst).Nodup := by
  intro es
  induction es with
  | nil =>
    intro a _ _ _ hnd
    simpa [lineScanF] using hnd
  | cons e es ih =>
    intro a hbody hpair h2 hnd
    obtain ⟨hhead, htail⟩ := List.pairwise_cons.1 hpair
    have hbody_tl : ∀ e' ∈ es, e'.body = e'.seenIndex :=
      fun e' he' => hbody e' (List.mem_cons_of_mem _ he')
    rw [lineScanF]
    split
    · exact ih a hbody_tl htail
        (fun j hj e' he' hxy => h2 j hj e' (List.mem_cons_of_mem _ he') hxy) hnd
    · next hcond =>
      have hexy : e.x = gx ∧ e.y = gy := by
        simp only [Bool.or_eq_true, bne_iff_ne, ne_eq, not_or, not_not] at hcond
        exact hcond
      have hnotin : e.body ∉ a.trace.map Prod.fst :=
        fun hin => h2 e.body hin e (List.mem_cons_self _ _) hexy rfl
      have hnext : ∀ (a₂ : ScanAcc),
          (a₂.trace = a.trace ∨
            a₂.trace = a.trace ++ [(e.body, cs.collideAt fx fy tx ty e.body)]) →
          ((lineScanF cs fx fy tx ty gx gy ie pg tgt es a₂).trace.map Prod.fst).Nodup := by
        intro a₂ htr
        rcases htr with htr | htr
        · exact ih a₂ hbody_tl htail
            (fun j hj e' he' hxy => h2 j (htr ▸ hj) e' (List.mem_cons_of_mem _ he') hxy)
            (htr ▸ hnd)
        · refine ih a₂ hbody_tl htail ?_ ?_
          · intro j hj e' he' hxy
            rw [htr, List.map_append, List.mem_append] at hj
            rcases hj with hj | hj
            · exact h2 j hj e' (List.mem_cons_of_mem _ he') hxy
            · have hje : j = e.body := by
                simpa using hj
              subst hje
              have hrel := hhead e' he'
              intro hbe
              have hsi : e.seenIndex = e'.seenIndex := by
                rw [← hbody e (List.mem_cons_self _ _), ← hbody_tl e' he', hbe]
              have := hrel hsi
              exact this (by rw [hexy.1, hexy.2, hxy.1, hxy.2])
          · rw [htr, List.map_append]
            rw [List.nodup_append]
            refine ⟨hnd, List.nodup_singleton _, ?_⟩
            intro j hj hj'
            have : j = e.body := by
              simpa using hj'
            subst this
            exact hnotin hj
      split
      · exact hnext _ (Or.inl rfl)
      · exact hnext _ (Or.inr rfl)

/-- The stepped scan preserves the marking invariant: the seen vector keeps
its size, every traced body's marker equals the query epoch, and no body is
traced twice. -/
theorem scanS_markInv (cs : CollisionSet) (fx fy tx ty gx gy : Int)
    (ie : Nat → Nat → Bool) (pg tgt : Option Nat) (epoch nsz : Nat) :
    ∀ (es : List Entry) (a : StepAcc),
      (∀ e ∈ es, e.body = e.seenIndex ∧ e.seenIndex < nsz) →
      a.seen.size = nsz →
      (∀ j ∈ a.trace.map Prod.fst, a.seen.getD j 0 = epoch) →
      (a.trace.map Prod.fst).Nodup →
      (lineScanS cs fx fy tx ty gx gy ie pg tgt epoch es a).seen.size = nsz ∧
      (∀ j ∈ (lineScanS cs fx fy tx ty gx gy ie pg tgt epoch es a).trace.map Prod.fst,
        (lineScanS cs fx fy tx ty gx gy ie pg tgt epoch es a).seen.getD j 0 = epoch) ∧
      ((lineScanS cs fx fy tx ty gx gy ie pg tgt epoch es a).trace.map Prod.fst).Nodup := by
  intro es
  induction es with
  | nil =>
    intro a _ hsz hmk hnd
    exact ⟨hsz, hmk, hnd⟩
  | cons e es ih =>
    intro a hbody hsz hmk hnd
    have hbody_tl : ∀ e' ∈ es, e'.body = e'.seenIndex ∧ e'.seenIndex < nsz :=
      fun e' he' => hbody e' (List.mem_cons_of_mem _ he')
    rw [lineScanS]
    split
    · exact ih a hbody_tl hsz hmk hnd
    · split
      · exact ih a hbody_tl hsz hmk hnd
      · next hunseen =>
        have hbe : e.body = e.seenIndex := (hbody e (List.mem_cons_self _ _)).1
        have hlt : e.seenIndex < nsz := (hbody e (List.mem_cons_self _ _)).2
        have hun : a.seen.getD e.seenIndex 0 ≠ epoch := by
          simpa using hunseen
        have hsz' : (a.seen.setD e.seenIndex epoch).size = nsz := by
          rw [Array.size_setD]
          exact hsz
        have hmk' : ∀ j ∈ a.trace.map Prod.fst,
            (a.seen.setD e.seenIndex epoch).getD j 0 = epoch := by
          intro j hj
          rw [getD_setD]
          split
          · rfl
          · exact hmk j hj
        have hnotin : e.body ∉ a.trace.map Prod.fst := by
          intro hin
          exact hun (hbe ▸ hmk e.body hin)
        have hnext : ∀ (a₂ : StepAcc), a₂.seen = a.seen.setD e.seenIndex epoch →
            (a₂.trace = a.trace ∨
              a₂.trace = a.trace ++ [(e.body, cs.collideAt fx fy tx ty e.body)]) →
            (lineScanS cs fx fy tx ty gx gy ie pg tgt epoch es a₂).seen.size = nsz ∧
            (∀ j ∈ (lineScanS cs fx fy tx ty gx gy ie pg tgt epoch es a₂).trace.map
                Prod.fst,
              (lineScanS cs fx fy tx ty gx gy ie pg tgt epoch es a₂).seen.getD j 0 =
                epoch) ∧
            ((lineScanS cs fx fy tx ty gx gy ie pg tgt epoch es a₂).trace.map
              Prod.fst).Nodup := by
          intro a₂ hseen htr
          rcases htr with htr | htr
          · exact ih a₂ hbody_tl (hseen ▸ hsz') (fun j hj => hseen ▸ hmk' j (htr ▸ hj))
              (htr ▸ hnd)
          · refine ih a₂ hbody_tl (hseen ▸ hsz') ?_ ?_
            · intro j hj
              rw [htr, List.map_append, List.mem_append] at hj
              rw [hseen]
              rcases hj with hj | hj
              · exact hmk' j hj
              · have hje : j = e.body := by
                  simpa using hj
                subst hje
                rw [hbe, getD_setD]
                rw [if_pos ⟨rfl, by rw [hsz]; exact hlt⟩]
            · rw [htr, List.map_append, List.nodup_append]
              refine ⟨hnd, List.nodup_singleton _, ?_⟩
              intro j hj hj'
              have : j = e.body := by
                simpa using hj'
              subst this
              exact hnotin hj
        split
        · exact hnext _ rfl (Or.inl rfl)
        · exact hnext _ rfl (Or.inr rfl)

/-- The grid walk of `Line` preserves the marking invariant across cells. -/
theorem loop_markInv (cs : CollisionSet) (fx fy tx ty endGX endGY stepX stepY : Int)
    (mx my fullScale : Nat) (ie : Nat → Nat → Bool) (pg tgt : Option Nat)
    (epoch nsz : Nat)
    (hglob : ∀ e ∈ cs.sorted.toList, e.body = e.seenIndex ∧ e.seenIndex < nsz) :
    ∀ (fuel : Nat) (gx gy : Int) (rx ry : Nat) (a : StepAcc),
      a.seen.size = nsz →
      (∀ j ∈ a.trace.map Prod.fst, a.seen.getD j 0 = epoch) →
      (a.trace.map Prod.fst).Nodup →
      (lineLoop cs fx fy tx ty endGX endGY stepX stepY mx my fullScale ie pg tgt epoch
        fuel gx gy rx ry a).seen.size = nsz ∧
      (∀ j ∈ (lineLoop cs fx fy tx ty endGX endGY stepX stepY mx my fullScale ie pg tgt
          epoch fuel gx gy rx ry a).trace.map Prod.fst,
        (lineLoop cs fx fy tx ty endGX endGY stepX stepY mx my fullScale ie pg tgt epoch
          fuel gx gy rx ry a).seen.getD j 0 = epoch) ∧
      ((lineLoop cs fx fy tx ty endGX endGY stepX stepY mx my fullScale ie pg tgt epoch
        fuel gx gy rx ry a).trace.map Prod.fst).Nodup := by
  intro fuel
  induction fuel with
  | zero =>
    intro gx gy rx ry a hsz hmk hnd
    exact ⟨hsz, hmk, hnd⟩
  | succ fuel ih =>
    intro gx gy rx ry a hsz hmk hnd
    simp only [lineLoop]
    obtain ⟨hsz', hmk', hnd'⟩ := scanS_markInv cs fx fy tx ty gx gy ie pg tgt epoch nsz
      (cs.binEntries (binOfXY cs.CELLS gx gy)) a
      (fun e he => hglob e (binEntries_mem_sorted cs _ he)) hsz hmk hnd
    split
    · exact ⟨hsz', hmk', hnd'⟩
    · split
      · split
        · exact ⟨hsz', hmk', hnd'⟩
        · exact ih _ _ _ _ _ hsz' hmk' hnd'
      · split
        · exact ih _ _ _ _ _ hsz' hmk' hnd'
        · exact ih _ _ _ _ _ hsz' hmk' hnd'

/-- Both paths of `LineNoClamp` produce a duplicate-free mask-test sequence on
an index satisfying the entry invariants. -/
theorem lineNoClamp_trace_nodup (cs : CollisionSet) (h : EntriesInv cs)
    (fx fy tx ty : Int) (ch : Option Rat) (ie : Nat → Nat → Bool)
    (pg tgt : Option Nat) :
    ((cs.LineNoClamp fx fy tx ty ch ie pg tgt).trace.map Prod.fst).Nodup := by
  obtain ⟨hinv, hpair⟩ := h
  simp only [CollisionSet.LineNoClamp]
  split
  · dsimp only
    exact scanF_trace_nodup cs fx fy tx ty (shr fx cs.SHIFT) (shr fy cs.SHIFT) ie pg tgt
      (cs.binEntries (binOfXY cs.CELLS (shr fx cs.SHIFT) (shr fy cs.SHIFT)))
      ⟨⟨ch.getD 1, none⟩, [], []⟩
      (fun e he => (hinv e (binEntries_mem_sorted cs _ he)).1)
      (binEntries_pairwise cs hpair _)
      (fun j hj => absurd hj (List.not_mem_nil j))
      List.nodup_nil
  · dsimp only
    exact (loop_markInv cs fx fy tx ty (shr tx cs.SHIFT) (shr ty cs.SHIFT)
      (if fx ≤ tx then 1 else -1) (if fy ≤ ty then 1 else -1)
      (tx - fx).natAbs (ty - fy).natAbs
      (cs.CELL_SIZE * (max (tx - fx).natAbs 1 * max (ty - fy).natAbs 1))
      ie pg tgt ((cs.seenEpoch + 1) % EPOCH_MOD) cs.seen.size hinv
      ((shr tx cs.SHIFT - shr fx cs.SHIFT).natAbs +
        (shr ty cs.SHIFT - shr fy cs.SHIFT).natAbs + 1)
      (shr fx cs.SHIFT) (shr fy cs.SHIFT) _ _
      ⟨⟨ch.getD 1, none⟩, [], [], cs.seen⟩ rfl
      (fun j hj => absurd hj (List.not_mem_nil j)) List.nodup_nil).2.2

/-- The `Ring` cell scan preserves the marking invariant for both the
acceptance-test sequence and the result buffer. -/
theorem ringScan_markInv (cs : CollisionSet) (cx cy : Int) (inner outer : Rat)
    (epoch nsz : Nat) (x y : Int) :
    ∀ (es : List Entry) (a : RingAcc),
      (∀ e ∈ es, e.body = e.seenIndex ∧ e.seenIndex < nsz) →
      a.seen.size = nsz →
      (∀ j ∈ a.trace, a.seen.getD j 0 = epoch) →
      a.trace.Nodup →
      (∀ j ∈ a.result, a.seen.getD j 0 = epoch) →
      a.result.Nodup →
      (ringScanCell cs cx cy inner outer epoch x y es a).seen.size = nsz ∧
      (∀ j ∈ (ringScanCell cs cx cy inner outer epoch x y es a).trace,
        (ringScanCell cs cx cy inner outer epoch x y es a).seen.getD j 0 = epoch) ∧
      (ringScanCell cs cx cy inner outer epoch x y es a).trace.Nodup ∧
      (∀ j ∈ (ringScanCell cs cx cy inner outer epoch x y es a).result,
        (ringScanCell cs cx cy inner outer epoch x y es a).seen.getD j 0 = epoch) ∧
      (ringScanCell cs cx cy inner outer epoch x y es a).result.Nodup := by
  intro es
  induction es with
  | nil =>
    intro a _ hsz hmt hnt hmr hnr
    exact ⟨hsz, hmt, hnt, hmr, hnr⟩
  | cons e es ih =>
    intro a hbody hsz hmt hnt hmr hnr
    have hbody_tl : ∀ e' ∈ es, e'.body = e'.seenIndex ∧ e'.seenIndex < nsz :=
      fun e' he' => hbody e' (List.mem_cons_of_mem _ he')
    rw [ringScanCell]
    split
    · exact ih a hbody_tl hsz hmt hnt hmr hnr
    · split
      · exact ih a hbody_tl hsz hmt hnt hmr hnr
      · next hunseen =>
        have hbe : e.body = e.seenIndex := (hbody e (List.mem_cons_self _ _)).1
        have hlt : e.seenIndex < nsz := (hbody e (List.mem_cons_self _ _)).2
        have hun : a.seen.getD e.seenIndex 0 ≠ epoch := by
          simpa using hunseen
        have hsz' : (a.seen.setD e.seenIndex epoch).size = nsz := by
          rw [Array.size_setD]
          exact hsz
        have hset_old : ∀ (l : List Nat), (∀ j ∈ l, a.seen.getD j 0 = epoch) →
            ∀ j ∈ l, (a.seen.setD e.seenIndex epoch).getD j 0 = epoch := by
          intro l hl j hj
          rw [getD_setD]
          split
          · rfl
          · exact hl j hj
        have hset_new : (a.seen.setD e.seenIndex epoch).getD e.body 0 = epoch := by
          rw [hbe, getD_setD, if_pos ⟨rfl, by rw [hsz]; exact hlt⟩]
        have hnotin_t : e.body ∉ a.trace := by
          intro hin
          exact hun (hbe ▸ hmt e.body hin)
        have hnotin_r : e.body ∉ a.result := by
          intro hin
          exact hun (hbe ▸ hmr e.body hin)
        have happ : ∀ (l : List Nat), e.body ∉ l → l.Nodup → (l ++ [e.body]).Nodup := by
          intro l hni hl
          rw [List.nodup_append]
          refine ⟨hl, List.nodup_singleton _, ?_⟩
          intro j hj hj'
          have : j = e.body := by
            simpa using hj'
          subst this
          exact hni hj
        have hnext : ∀ (a₂ : RingAcc), a₂.seen = a.seen.setD e.seenIndex epoch →
            a₂.trace = a.trace ++ [e.body] →
            (a₂.result = a.result ∨ a₂.result = a.result ++ [e.body]) →
            (ringScanCell cs cx cy inner outer epoch x y es a₂).seen.size = nsz ∧
            (∀ j ∈ (ringScanCell cs cx cy inner outer epoch x y es a₂).trace,
              (ringScanCell cs cx cy inner outer epoch x y es a₂).seen.getD j 0 =
                epoch) ∧
            (ringScanCell cs cx cy inner outer epoch x y es a₂).trace.Nodup ∧
            (∀ j ∈ (ringScanCell cs cx cy inner outer epoch x y es a₂).result,
              (ringScanCell cs cx cy inner outer epoch x y es a₂).seen.getD j 0 =
                epoch) ∧
            (ringScanCell cs cx cy inner outer epoch x y es a₂).result.Nodup := by
          intro a₂ hseen htr hres
          have hmt₂ : ∀ j ∈ a₂.trace, a₂.seen.getD j 0 = epoch := by
            intro j hj
            rw [htr, List.mem_append] at hj
            rw [hseen]
            rcases hj with hj | hj
            · exact hset_old _ hmt j hj
            · have : j = e.body := by
                simpa using hj
              subst this
              exact hset_new
          have hnt₂ : a₂.trace.Nodup := htr ▸ happ _ hnotin_t hnt
          rcases hres with hres | hres
          · refine ih a₂ hbody_tl (hseen ▸ hsz') hmt₂ hnt₂ ?_ (hres ▸ hnr)
            intro j hj
            rw [hseen]
            exact hset_old _ hmr j (hres ▸ hj)
          · refine ih a₂ hbody_tl (hseen ▸ hsz') hmt₂ hnt₂ ?_ (hres ▸ happ _ hnotin_r hnr)
            intro j hj
            rw [hres, List.mem_append] at hj
            rw [hseen]
            rcases hj with hj | hj
            · exact hset_old _ hmr j hj
            · have : j = e.body := by
                simpa using hj
              subst this
              exact hset_new
        split
        · exact hnext _ rfl rfl (Or.inr rfl)
        · exact hnext _ rfl rfl (Or.inl rfl)

theorem ringRow_markInv (cs : CollisionSet) (cx cy : Int) (inner outer : Rat)
    (epoch nsz : Nat) (y : Int)
    (hglob : ∀ e ∈ cs.sorted.toList, e.body = e.seenIndex ∧ e.seenIndex < nsz) :
    ∀ (xs : List Int) (a : RingAcc),
      a.seen.size = nsz →
      (∀ j ∈ a.trace, a.seen.getD j 0 = epoch) →
      a.trace.Nodup →
      (∀ j ∈ a.result, a.seen.getD j 0 = epoch) →
      a.result.Nodup →
      ((xs.foldl (fun a x => ringScanCell cs cx cy inner outer epoch x y
        (cs.binEntries (binOfXY cs.CELLS x y)) a) a)).seen.size = nsz ∧
      (∀ j ∈ ((xs.foldl (fun a x => ringScanCell cs cx cy inner outer epoch x y
          (cs.binEntries (binOfXY cs.CELLS x y)) a) a)).trace,
        ((xs.foldl (fun a x => ringScanCell cs cx cy inner outer epoch x y
          (cs.binEntries (binOfXY cs.CELLS x y)) a) a)).seen.getD j 0 = epoch) ∧
      ((xs.foldl (fun a x => ringScanCell cs cx cy inner outer epoch x y
        (cs.binEntries (binOfXY cs.CELLS x y)) a) a)).trace.Nodup ∧
      (∀ j ∈ ((xs.foldl (fun a x => ringScanCell cs cx cy inner outer epoch x y
          (cs.binEntries (binOfXY cs.CELLS x y)) a) a)).result,
        ((xs.foldl (fun a x => ringScanCell cs cx cy inner outer epoch x y
          (cs.binEntries (binOfXY cs.CELLS x y)) a) a)).seen.getD j 0 = epoch) ∧
      ((xs.foldl (fun a x => ringScanCell cs cx cy inner outer epoch x y
        (cs.binEntries (binOfXY cs.CELLS x y)) a) a)).result.Nodup := by
  intro xs
  induction xs with
  | nil =>
    intro a hsz hmt hnt hmr hnr
    exact ⟨hsz, hmt, hnt, hmr, hnr⟩
  | cons x xs ih =>
    intro a hsz hmt hnt hmr hnr
    rw [List.foldl_cons]
    obtain ⟨hsz', hmt', hnt', hmr', hnr'⟩ := ringScan_markInv cs cx cy inner outer
      epoch nsz x y (cs.binEntries (binOfXY cs.CELLS x y)) a
      (fun e he => hglob e (binEntries_mem_sorted cs _ he)) hsz hmt hnt hmr hnr
    exact ih _ hsz' hmt' hnt' hmr' hnr'

theorem ringGrid_markInv (cs : CollisionSet) (cx cy : Int) (inner outer : Rat)
    (epoch nsz : Nat) (minX maxX : Int)
    (hglob : ∀ e ∈ cs.sorted.toList, e.body = e.seenIndex ∧ e.seenIndex < nsz) :
    ∀ (ys : List Int) (a : RingAcc),
      a.seen.size = nsz →
      (∀ j ∈ a.trace, a.seen.getD j 0 = epoch) →
      a.trace.Nodup →
      (∀ j ∈ a.result, a.seen.getD j 0 = epoch) →
      a.result.Nodup →
      ((ys.foldl (fun a y => (rangeInt minX maxX).foldl
        (fun a x => ringScanCell cs cx cy inner outer epoch x y
          (cs.binEntries (binOfXY cs.CELLS x y)) a) a) a)).trace.Nodup ∧
      ((ys.foldl (fun a y => (rangeInt minX maxX).foldl
        (fun a x => ringScanCell cs cx cy inner outer epoch x y
          (cs.binEntries (binOfXY cs.CELLS x y)) a) a) a)).result.Nodup := by
  have haux : ∀ (ys : List Int) (a : RingAcc),
      a.seen.size = nsz →
      (∀ j ∈ a.trace, a.seen.getD j 0 = epoch) →
      a.trace.Nodup →
      (∀ j ∈ a.result, a.seen.getD j 0 = epoch) →
      a.result.Nodup →
      ((ys.foldl (fun a y => (rangeInt minX maxX).foldl
        (fun a x => ringScanCell cs cx cy inner outer epoch x y
          (cs.binEntries (binOfXY cs.CELLS x y)) a) a) a)).seen.size = nsz ∧
      (∀ j ∈ ((ys.foldl (fun a y => (rangeInt minX maxX).foldl
          (fun a x => ringScanCell cs cx cy inner outer epoch x y
            (cs.binEntries (binOfXY cs.CELLS x y)) a) a) a)).trace,
        ((ys.foldl (fun a y => (rangeInt minX maxX).foldl
          (fun a x => ringScanCell cs cx cy inner outer epoch x y
            (cs.binEntries (binOfXY cs.CELLS x y)) a) a) a)).seen.getD j 0 = epoch) ∧
      ((ys.foldl (fun a y => (rangeInt minX maxX).foldl
        (fun a x => ringScanCell cs cx cy inner outer epoch x y
          (cs.binEntries (binOfXY cs.CELLS x y)) a) a) a)).trace.Nodup ∧
      (∀ j ∈ ((ys.foldl (fun a y => (rangeInt minX maxX).foldl
          (fun a x => ringScanCell cs cx cy inner outer epoch x y
            (cs.binEntries (binOfXY cs.CELLS x y)) a) a) a)).result,
        ((ys.foldl (fun a y => (rangeInt minX maxX).foldl
          (fun a x => ringScanCell cs cx cy inner outer epoch x y
            (cs.binEntries (binOfXY cs.CELLS x y)) a) a) a)).seen.getD j 0 = epoch) ∧
      ((ys.foldl (fun a y => (rangeInt minX maxX).foldl
        (fun a x => ringScanCell cs cx cy inner outer epoch x y
          (cs.binEntries (binOfXY cs.CELLS x y)) a) a) a)).result.Nodup := by
    intro ys
    induction ys with
    | nil =>
      intro a hsz hmt hnt hmr hnr
      exact ⟨hsz, hmt, hnt, hmr, hnr⟩
    | cons y ys ih =>
      intro a hsz hmt hnt hmr hnr
      rw [List.foldl_cons]
      obtain ⟨hsz', hmt', hnt', hmr', hnr'⟩ := ringRow_markInv cs cx cy inner outer
        epoch nsz y hglob (rangeInt minX maxX) a hsz hmt hnt hmr hnr
      exact ih _ hsz' hmt' hnt' hmr' hnr'
  intro ys a hsz hmt hnt hmr hnr
  obtain ⟨_, _, hnt', _, hnr'⟩ := haux ys a hsz hmt hnt hmr hnr
  exact ⟨hnt', hnr'⟩

/-- A `Ring` query on an index satisfying the entry invariants subjects each
body to the acceptance test at most once and places each accepted body in the
result buffer exactly once. -/
theorem ring_nodup (cs : CollisionSet) (h : EntriesInv cs) (cx cy : Int)
    (inner outer : Rat) :
    (cs.Ring cx cy inner outer).trace.Nodup ∧
    (cs.Ring cx cy inner outer).result.Nodup := by
  obtain ⟨hinv, _⟩ := h
  simp only [CollisionSet.Ring]
  exact ringGrid_markInv cs cx cy inner outer ((cs.seenEpoch + 1) % EPOCH_MOD)
    cs.seen.size (shr (truncSub cx outer) cs.SHIFT) (shr (truncAdd cx outer) cs.SHIFT)
    hinv (rangeInt (shr (truncSub cy outer) cs.SHIFT) (shr (truncAdd cy outer) cs.SHIFT))
    ⟨[], [], cs.seen⟩ rfl
    (fun j hj => absurd hj (List.not_mem_nil j)) List.nodup_nil
    (fun j hj => absurd hj (List.not_mem_nil j)) List.nodup_nil

/-- C3: on a finalized index whose table satisfies the entry invariants
established by `Finish`, a single `Line` query passes no body to the mask
`Collide` call more than once, and a single `Ring` or `Circle` query subjects
no body to the center/`WithinRing` acceptance test more than once, even when a
body's entries occupy several scanned cells. -/
theorem C3_no_double_test (cs : CollisionSet) (h : EntriesInv cs) (w : Bool)
    (fx fy tx ty : Int) (ch : Option Rat) (ie : Nat → Nat → Bool)
    (pg tgt : Option Nat) (cx cy : Int) (inner outer radius : Rat) :
    ((cs.Line w fx fy tx ty ch ie pg tgt).out.trace.map Prod.fst).Nodup ∧
    (cs.Ring cx cy inner outer).trace.Nodup ∧
    (cs.Circle cx cy radius).trace.Nodup := by
  refine ⟨?_, (ring_nodup cs h cx cy inner outer).1, (ring_nodup cs h cx cy 0 radius).1⟩
  simp only [CollisionSet.Line]
  split
  · exact lineNoClamp_trace_nodup cs h fx fy tx ty ch ie pg tgt
  · split
    · exact lineNoClamp_trace_nodup cs h fx fy (clampEnd fx fy tx ty).1
        (clampEnd fx fy tx ty).2 ch ie pg tgt
    · exact lineNoClamp_trace_nodup cs h fx fy tx ty ch ie pg tgt

/-- Witness for C3 on the two-body index, with a query crossing three cells. -/
theorem C3_witness :
    ((exSetAB.Line false 0 8 40 8 none exFalseEnemy none none).out.trace.map
      Prod.fst).Nodup ∧
    (exSetAB.Ring 20 8 0 (Rat.divInt 10 1)).trace.Nodup ∧
    (exSetAB.Circle 20 8 (Rat.divInt 10 1)).trace.Nodup :=
  C3_no_double_test exSetAB (build_entriesInv 16 4 0 [exBodyA, exBodyB]) false
    0 8 40 8 none exFalseEnemy none none 20 8 0 (Rat.divInt 10 1) (Rat.divInt 10 1)

theorem forall2_getD_body {l₁ l₂ : List Body} (h : List.Forall₂ govIndep l₁ l₂) :
    ∀ i : Nat, govIndep (l₁.getD i default) (l₂.getD i default) := by
  induction h with
  | nil =>
    intro i
    exact ⟨rfl, rfl, rfl, rfl, rfl⟩
  | cons hab _ ih =>
    intro i
    cases i with
    | zero => simpa using hab
    | succ i => simpa using ih i

theorem bodyAt_congr {cs₁ cs₂ : CollisionSet}
    (h : List.Forall₂ govIndep cs₁.all cs₂.all) (i : Nat) :
    govIndep (cs₁.bodyAt i) (cs₂.bodyAt i) :=
  forall2_getD_body h i

theorem ringAccepts_congr {cs₁ cs₂ : CollisionSet}
    (h : List.Forall₂ govIndep cs₁.all cs₂.all) (cx cy : Int) (inner outer : Rat)
    (i : Nat) :
    cs₁.ringAccepts cx cy inner outer i = cs₂.ringAccepts cx cy inner outer i := by
  obtain ⟨hx, hy, _, _, hw⟩ := bodyAt_congr h i
  simp only [CollisionSet.ringAccepts]
  rw [hx, hy, hw]

theorem binEntries_congr {cs₁ cs₂ : CollisionSet} (h5 : cs₁.sorted = cs₂.sorted)
    (h6 : cs₁.counts = cs₂.counts) (i : Nat) :
    cs₁.binEntries i = cs₂.binEntries i := by
  unfold CollisionSet.binEntries
  rw [h5, h6]

theorem ringScanCell_congr {cs₁ cs₂ : CollisionSet}
    (hall : List.Forall₂ govIndep cs₁.all cs₂.all) (cx cy : Int) (inner outer : Rat)
    (epoch : Nat) (x y : Int) :
    ∀ (es : List Entry) (a : RingAcc),
      ringScanCell cs₁ cx cy inner outer epoch x y es a =
      ringScanCell cs₂ cx cy inner outer epoch x y es a := by
  intro es
  induction es with
  | nil =>
    intro a
    rfl
  | cons e es ih =>
    intro a
    simp only [ringScanCell]
    by_cases h1 : (e.x != x || e.y != y) = true
    · rw [if_pos h1, if_pos h1]
      exact ih a
    · rw [if_neg h1, if_neg h1]
      by_cases h2 : (a.seen.getD e.seenIndex 0 == epoch) = true
      · rw [if_pos h2, if_pos h2]
        exact ih a
      · rw [if_neg h2, if_neg h2]
        rw [ringAccepts_congr hall cx cy inner outer e.body]
        by_cases h3 : cs₂.ringAccepts cx cy inner outer e.body = true
        · rw [if_pos h3, if_pos h3]
          exact ih _
        · rw [if_neg h3, if_neg h3]
          exact ih _

theorem ringRow_congr {cs₁ cs₂ : CollisionSet}
    (hall : List.Forall₂ govIndep cs₁.all cs₂.all)
    (hbe : ∀ i, cs₁.binEntries i = cs₂.binEntries i) (hCELLS : cs₁.CELLS = cs₂.CELLS)
    (cx cy : Int) (inner outer : Rat) (epoch : Nat) (y : Int) :
    ∀ (xs : List Int) (a : RingAcc),
      xs.foldl (fun a x => ringScanCell cs₁ cx cy inner outer epoch x y
        (cs₁.binEntries (binOfXY cs₁.CELLS x y)) a) a =
      xs.foldl (fun a x => ringScanCell cs₂ cx cy inner outer epoch x y
        (cs₂.binEntries (binOfXY cs₂.CELLS x y)) a) a := by
  intro xs
  induction xs with
  | nil =>
    intro a
    rfl
  | cons x xs ih =>
    intro a
    have harg : cs₁.binEntries (binOfXY cs₁.CELLS x y) =
        cs₂.binEntries (binOfXY cs₂.CELLS x y) := by
      rw [hbe, hCELLS]
    rw [List.foldl_cons, List.foldl_cons,
      ringScanCell_congr hall cx cy inner outer epoch x y, harg]
    exact ih _

theorem ringGrid_congr {cs₁ cs₂ : CollisionSet}
    (hall : List.Forall₂ govIndep cs₁.all cs₂.all)
    (hbe : ∀ i, cs₁.binEntries i = cs₂.binEntries i) (hCELLS : cs₁.CELLS = cs₂.CELLS)
    (cx cy : Int) (inner outer : Rat) (epoch : Nat) (minX maxX : Int) :
    ∀ (ys : List Int) (a : RingAcc),
      ys.foldl (fun a y => (rangeInt minX maxX).foldl
        (fun a x => ringScanCell cs₁ cx cy inner outer epoch x y
          (cs₁.binEntries (binOfXY cs₁.CELLS x y)) a) a) a =
      ys.foldl (fun a y => (rangeInt minX maxX).foldl
        (fun a x => ringScanCell cs₂ cx cy inner outer epoch x y
          (cs₂.binEntries (binOfXY cs₂.CELLS x y)) a) a) a := by
  intro ys
  induction ys with
  | nil =>
    intro a
    rfl
  | cons y ys ih =>
    intro a
    rw [List.foldl_cons, List.foldl_cons,
      ringRow_congr hall hbe hCELLS cx cy inner outer epoch y (rangeInt minX maxX) a]
    exact ih _

/-- `Ring` reads no government: related states produce identical outputs. -/
theorem ring_congr (cs₁ cs₂ : CollisionSet) (h : StateRel cs₁ cs₂) (cx cy : Int)
    (inner outer : Rat) :
    cs₁.Ring cx cy inner outer = cs₂.Ring cx cy inner outer := by
  obtain ⟨h1, h2, h3, h4, h5, h6, h7, h8, h9⟩ := h
  have hbe : ∀ i, cs₁.binEntries i = cs₂.binEntries i := binEntries_congr h5 h6
  simp only [CollisionSet.Ring]
  rw [h1, h8, h7]
  rw [ringGrid_congr h9 hbe h2 cx cy inner outer ((cs₂.seenEpoch + 1) % EPOCH_MOD)
    (shr (truncSub cx outer) cs₂.SHIFT) (shr (truncAdd cx outer) cs₂.SHIFT)
    (rangeInt (shr (truncSub cy outer) cs₂.SHIFT) (shr (truncAdd cy outer) cs₂.SHIFT))
    ⟨[], [], cs₂.seen⟩]

/-- C10: `Ring` and `Circle` never consult any body's government: two runs on
indices that differ only in the governments assigned to the stored bodies
return identical outputs, and on an index satisfying the entry invariants each
accepted body appears exactly once in the result buffer. -/
theorem C10_ring_gov_independence (cs₁ cs₂ : CollisionSet) (h : StateRel cs₁ cs₂)
    (hE : EntriesInv cs₁) (cx cy : Int) (inner outer radius : Rat) :
    cs₁.Ring cx cy inner outer = cs₂.Ring cx cy inner outer ∧
    cs₁.Circle cx cy radius = cs₂.Circle cx cy radius ∧
    (cs₁.Ring cx cy inner outer).result.Nodup ∧
    (cs₁.Circle cx cy radius).result.Nodup :=
  ⟨ring_congr cs₁ cs₂ h cx cy inner outer, ring_congr cs₁ cs₂ h cx cy 0 radius,
    (ring_nodup cs₁ hE cx cy inner outer).2, (ring_nodup cs₁ hE cx cy 0 radius).2⟩

/-- Witness for C10: the same three bodies with and without governments. -/
theorem C10_witness :
    exSetRing.Ring 10 0 0 (Rat.divInt 8 1) = exSetRingG.Ring 10 0 0 (Rat.divInt 8 1) ∧
    exSetRing.Circle 10 0 (Rat.divInt 8 1) = exSetRingG.Circle 10 0 (Rat.divInt 8 1) ∧
    (exSetRing.Ring 10 0 0 (Rat.divInt 8 1)).result.Nodup ∧
    (exSetRing.Circle 10 0 (Rat.divInt 8 1)).result.Nodup :=
  C10_ring_gov_independence exSetRing exSetRingG
    ⟨rfl, rfl, rfl, rfl, rfl, rfl, rfl, rfl,
      .cons ⟨rfl, rfl, rfl, rfl, rfl⟩ (.cons ⟨rfl, rfl, rfl, rfl, rfl⟩
        (.cons ⟨rfl, rfl, rfl, rfl, rfl⟩ .nil))⟩
    (build_entriesInv 16 4 0 [exRingBody 5, exRingBody 15, exRingBody 30])
    10 0 0 (Rat.divInt 8 1) (Rat.divInt 8 1)

end ES
